import Mathlib

/-!
Verification of the session-scoped transaction authorization and wire-encoding
subsystem of the wallet agent (Python sources under
`src/wallet/ssowallet/agent/`).

Modeling conventions, used throughout:
* A Python hex string `"0x…"` is modeled by the list of its hex digits
  ("nibbles"), each a `Nat` below 16; the `"0x"` prefix is implicit.  String
  case is immaterial in this representation (a nibble has no case), which
  matches the code paths that lowercase hex strings before use.
* A Python byte string is modeled by the list of its byte values.
* Python `int` is modeled by `Int` (arbitrary precision, as in Python), or by
  `Nat` where the source only ever produces non-negative values.
* A Python function that can raise is modeled with `Option`/`Except`; `none` /
  `.error` is a raised exception.
-/

def hexDigitsAux : Nat → Nat → List Nat
  | 0, _ => []
  | fuel + 1, n => if n = 0 then [] else hexDigitsAux fuel (n / 16) ++ [n % 16]

/-- Minimal big-endian hex digits of `n`, most significant first, modeling
Python `hex(n)[2:]` for `n ≥ 0`: no leading zero digit, and `[0]` for `0`
(Python's `hex(0)` is `"0x0"`). -/
def hexDigitsOfNat (n : Nat) : List Nat :=
  if n = 0 then [0] else hexDigitsAux n n

theorem hexDigitsAux_eq_digits :
    ∀ fuel n, n ≤ fuel → hexDigitsAux fuel n = (Nat.digits 16 n).reverse := by
  intro fuel
  induction fuel with
  | zero =>
    intro n hn
    have : n = 0 := by omega
    subst this
    simp [hexDigitsAux]
  | succ f ih =>
    intro n hn
    by_cases h0 : n = 0
    · subst h0
      simp [hexDigitsAux]
    · have hpos : 0 < n := Nat.pos_of_ne_zero h0
      have hdiv : n / 16 ≤ f := by
        have := Nat.div_lt_self hpos (by norm_num : (1:Nat) < 16)
        omega
      simp only [hexDigitsAux, h0, if_neg, ite_false]
      rw [ih (n / 16) hdiv, Nat.digits_def' (by norm_num : (1:Nat) < 16) hpos]
      simp

theorem hexDigitsOfNat_eq (n : Nat) :
    hexDigitsOfNat n = if n = 0 then [0] else (Nat.digits 16 n).reverse := by
  by_cases h0 : n = 0
  · simp [hexDigitsOfNat, h0]
  · simp [hexDigitsOfNat, h0, hexDigitsAux_eq_digits n n le_rfl]

/-- Model of `to_bytes` (`agent_transaction.py` lines 283–294) applied to a hex
digit string: left-pad with one `0` digit if the digit count is odd, then read
consecutive digit pairs as bytes (Python `bytes.fromhex`). -/
def bytePairs : List Nat → List Nat
  | a :: b :: rest => (16 * a + b) :: bytePairs rest
  | _ => []

def bytesOfHexDigits (h : List Nat) : List Nat :=
  bytePairs (if h.length % 2 = 1 then 0 :: h else h)

/-- Specification-side notion used by the serializer claims: the minimal
big-endian byte encoding of a natural number, with `0` encoded as the empty
byte string (canonical RLP integer encoding). -/
def minBEBytes (n : Nat) : List Nat :=
  if n = 0 then [] else (Nat.digits 256 n).reverse

/-- Direction argument of `pad_hex` (`agent_encode_abi.py` lines 22–41),
Python strings `"left"` / `"right"`. -/
inductive PadDir where
  | left
  | right
deriving DecidableEq, Repr

/-- Model of `pad_hex(hex_value, dir, size)` (`agent_encode_abi.py` lines
22–41).  `byte_length` is `len(value) // 2`; when it exceeds `size` the value
is returned unchanged; otherwise `"0" * (size * 2 - len(value))` zeros are
appended on the chosen side (Python's negative-repeat yields the empty string,
matching `Nat` subtraction). -/
def pad_hex (h : List Nat) (dir : PadDir) (size : Nat) : List Nat :=
  let byteLength := h.length / 2
  if size < byteLength then h
  else
    let padding := List.replicate (size * 2 - h.length) 0
    match dir with
    | PadDir.right => h ++ padding
    | PadDir.left => padding ++ h

/-- Model of `size(hex_value)` (`agent_encode_abi.py` lines 14–19):
`(len - 2) // 2` on the prefixed string, i.e. digit count halved. -/
def hex_size (h : List Nat) : Nat := h.length / 2

/-- Model of `number_to_hex(number, size, signed)` (`agent_encode_abi.py`
lines 58–79) on integer inputs.  Unsigned: `hex(number & (2^(size*8) - 1))`
(Python `&` on a negative operand equals `emod`); signed: `hex(number)`, and
when that is negative, `hex(2^(size*8) + number)`.  The result is left-padded
to `size` bytes.  (String inputs are handled by the source by either padding a
`"0x…"` literal directly — see `prepare_param`'s number case — or `int()`
parsing a decimal string; callers below pass the parsed integer.) -/
def number_to_hex (i : Int) (size : Nat) (signed : Bool) : List Nat :=
  let digits :=
    if signed then
      if i < 0 then hexDigitsOfNat ((2 ^ (size * 8) + i).toNat)
      else hexDigitsOfNat i.toNat
    else hexDigitsOfNat ((i % (2 ^ (size * 8) : Int)).toNat)
  pad_hex digits PadDir.left size

/-- A 32-byte word for a `Nat`, the ubiquitous `number_to_hex(n)` call. -/
def hexWord (n : Nat) : List Nat := number_to_hex (Int.ofNat n) 32 false

theorem pad_hex_noop (x : List Nat) (n : Nat) (hlen : n ≤ x.length / 2)
    (dir : PadDir) : pad_hex x dir n = x := by
  rcases Nat.lt_or_ge n (x.length / 2) with h | h
  · simp [pad_hex, h]
  · have hxn : 2 * n ≤ x.length := by omega
    have hrep : n * 2 - x.length = 0 := by omega
    cases dir <;> simp [pad_hex, Nat.not_lt.mpr hlen, hrep, Nat.lt_irrefl]

theorem pad_hex_left_length (x : List Nat) (n : Nat) :
    n ≤ (pad_hex x PadDir.left n).length / 2 := by
  rcases Nat.lt_or_ge (x.length / 2) n with h | h
  · have : ¬ n < x.length / 2 := by omega
    simp only [pad_hex, if_neg this]
    simp only [List.length_append, List.length_replicate]
    omega
  · simp [pad_hex, pad_hex_noop x n h PadDir.left]
    rcases Nat.lt_or_ge n (x.length / 2) with h' | h'
    · simp [h']; omega
    · have : ¬ n < x.length / 2 := by omega
      simp [this, List.length_append]
      omega

/-- Claim C9: `padLeft(padLeft(x, n), n) == padLeft(x, n)` for every hex
string `x` and size `n` (`pad_hex` with `dir="left"`), and padding is a no-op
when the byte length of `x` (`len // 2` digits-to-bytes) is already at least
`n` (either direction). -/
theorem pad_hex_idempotent_noop (x : List Nat) (n : Nat) :
    pad_hex (pad_hex x PadDir.left n) PadDir.left n = pad_hex x PadDir.left n ∧
    (n ≤ x.length / 2 →
      pad_hex x PadDir.left n = x ∧ pad_hex x PadDir.right n = x) := by
  constructor
  · exact pad_hex_noop _ n (pad_hex_left_length x n) PadDir.left
  · intro h
    exact ⟨pad_hex_noop x n h PadDir.left, pad_hex_noop x n h PadDir.right⟩

/-- Witness for C9 at the concrete hex string `0x123` (digits `[1,2,3]`,
byte length 1) and size 1. -/
theorem pad_hex_idempotent_noop_witness :
    (pad_hex (pad_hex [1, 2, 3] PadDir.left 1) PadDir.left 1 =
        pad_hex [1, 2, 3] PadDir.left 1) ∧
    pad_hex [1, 2, 3] PadDir.left 1 = [1, 2, 3] ∧
    pad_hex [1, 2, 3] PadDir.right 1 = [1, 2, 3] :=
  ⟨(pad_hex_idempotent_noop [1, 2, 3] 1).1,
    (pad_hex_idempotent_noop [1, 2, 3] 1).2 (by decide)⟩

/-!
## Session data model

Parsed session configurations as produced by `parse_session_config`
(`agent_session.py`) and consumed by `get_period_ids_for_transaction`
(`agent_encoding.py`).  Numeric fields are Python ints that are non-negative
in every producing code path, modeled as `Nat`; addresses and selectors are
the hex strings of the parsed dictionaries.
-/

/-- `LimitType.Allowance` from `agent_config.py` (`Unlimited = 0`,
`Lifetime = 1`, `Allowance = 2`). -/
def limitTypeAllowance : Nat := 2

def lowerChar (c : Char) : Char :=
  if 65 ≤ c.toNat ∧ c.toNat ≤ 90 then Char.ofNat (c.toNat + 32) else c

/-- Python `str.lower()` on the ASCII strings (addresses, selectors, hashes)
these functions compare. -/
def lowerStr (s : String) : String := ⟨s.data.map lowerChar⟩

structure UsageLimit where
  limitType : Nat
  limit : Nat
  period : Nat
deriving DecidableEq, Repr

structure SessionConstraint where
  condition : Nat
  index : Nat
  refValue : String
  limit : UsageLimit
deriving DecidableEq, Repr

structure CallPolicy where
  target : String
  selector : String
  maxValuePerUse : Nat
  valueLimit : UsageLimit
  constraints : List SessionConstraint
deriving DecidableEq, Repr

structure TransferPolicy where
  target : String
  maxValuePerUse : Nat
  valueLimit : UsageLimit
deriving DecidableEq, Repr

structure SessionConfig where
  signer : String
  expiresAt : Nat
  feeLimit : UsageLimit
  callPolicies : List CallPolicy
  transferPolicies : List TransferPolicy
deriving DecidableEq, Repr

/-- Inner `get_id(limit)` of `get_period_ids_for_transaction`
(`agent_encoding.py` lines 27–30): `int(timestamp / int(limit["period"]))`
when `limitType == Allowance and period > 0`, else `0`.  Python's float true
division composed with `int()` truncation is modeled as exact `Nat` floor
division (they agree for all timestamps below `2^53`, far beyond Unix time).
-/
def get_id (limit : UsageLimit) (timestamp : Nat) : Nat :=
  if limit.limitType = limitTypeAllowance ∧ 0 < limit.period then
    timestamp / limit.period
  else 0

/-- Transfer-policy match of `agent_encoding.py` lines 44–48: lowercased
target equality, or the literal zero-address wildcard target. -/
def transferPolicyMatches (p : TransferPolicy) (target : String) : Bool :=
  lowerStr p.target == lowerStr target ||
    p.target == "0x0000000000000000000000000000000000000000"

/-- Call-policy match of `agent_encoding.py` lines 62–66: lowercased target
equality and (lowercased selector equality or the `0x00000000` wildcard
selector). -/
def callPolicyMatches (p : CallPolicy) (target selector : String) : Bool :=
  lowerStr p.target == lowerStr target &&
    (lowerStr p.selector == lowerStr selector || p.selector == "0x00000000")

/-- Model of `get_period_ids_for_transaction(session_config, target,
selector, timestamp)` (`agent_encoding.py` lines 8–84).  The `timestamp=None`
default (current time) is a caller-supplied argument here.  A transfer is a
`None` selector or one shorter than 10 characters. -/
def get_period_ids_for_transaction (cfg : SessionConfig) (target : String)
    (selector : Option String) (timestamp : Nat) : List Nat :=
  let feeId := get_id cfg.feeLimit timestamp
  let transferCase : List Nat :=
    match cfg.transferPolicies.find? (fun p => transferPolicyMatches p target)
      with
    | none => []
    | some p => [feeId, get_id p.valueLimit timestamp]
  match selector with
  | none => transferCase
  | some s =>
    if s.length < 10 then transferCase
    else
      match cfg.callPolicies.find? (fun p => callPolicyMatches p target s) with
      | none => []
      | some p =>
        feeId :: get_id p.valueLimit timestamp ::
          p.constraints.map (fun c => get_id c.limit timestamp)

/-- All `UsageLimit`s a session carries: the fee limit, each transfer
policy's value limit, and each call policy's value limit and constraint
limits.  Used to state which limit each produced period ID belongs to. -/
def sessionLimits (cfg : SessionConfig) : List UsageLimit :=
  cfg.feeLimit ::
    (cfg.transferPolicies.map TransferPolicy.valueLimit ++
      cfg.callPolicies.flatMap
        (fun p => p.valueLimit :: p.constraints.map SessionConstraint.limit))

/-- Claim C5: every bucket ID produced by `get_period_ids_for_transaction`
is, for some `UsageLimit` of the session, `floor(timestamp / period)` when
`limitType == Allowance` and `period > 0`, and `0` otherwise. -/
theorem get_period_ids_buckets (cfg : SessionConfig) (target : String)
    (selector : Option String) (timestamp : Nat) (x : Nat)
    (hx : x ∈ get_period_ids_for_transaction cfg target selector timestamp) :
    ∃ l ∈ sessionLimits cfg,
      x = if l.limitType = limitTypeAllowance ∧ 0 < l.period then
            timestamp / l.period
          else 0 := by
  have feeMem : cfg.feeLimit ∈ sessionLimits cfg := by
    simp [sessionLimits]
  have transferCase :
      ∀ p, cfg.transferPolicies.find?
          (fun p => transferPolicyMatches p target) = some p →
        x ∈ [get_id cfg.feeLimit timestamp, get_id p.valueLimit timestamp] →
        ∃ l ∈ sessionLimits cfg,
          x = if l.limitType = limitTypeAllowance ∧ 0 < l.period then
                timestamp / l.period
              else 0 := by
    intro p hfind hmem
    have hp : p ∈ cfg.transferPolicies := List.mem_of_find?_eq_some hfind
    rcases List.mem_cons.mp hmem with h | h
    · exact ⟨cfg.feeLimit, feeMem, by rw [h]; rfl⟩
    · have h' : x = get_id p.valueLimit timestamp := by
        simpa using h
      refine ⟨p.valueLimit, ?_, by rw [h']; rfl⟩
      simp only [sessionLimits, List.mem_cons, List.mem_append, List.mem_map]
      exact Or.inr (Or.inl ⟨p, hp, rfl⟩)
  unfold get_period_ids_for_transaction at hx
  rcases selector with _ | s
  · simp only at hx
    rcases hfind : cfg.transferPolicies.find?
        (fun p => transferPolicyMatches p target) with _ | p <;>
      rw [hfind] at hx
    · simp at hx
    · exact transferCase p hfind hx
  · simp only at hx
    by_cases hs : s.length < 10
    · rw [if_pos hs] at hx
      rcases hfind : cfg.transferPolicies.find?
          (fun p => transferPolicyMatches p target) with _ | p <;>
        rw [hfind] at hx
      · simp at hx
      · exact transferCase p hfind hx
    · rw [if_neg hs] at hx
      rcases hfind : cfg.callPolicies.find?
          (fun p => callPolicyMatches p target s) with _ | p <;>
        rw [hfind] at hx
      · simp at hx
      · have hp : p ∈ cfg.callPolicies := List.mem_of_find?_eq_some hfind
        have hmemP : ∀ l, l ∈ p.valueLimit ::
            p.constraints.map SessionConstraint.limit →
            l ∈ sessionLimits cfg := by
          intro l hl
          simp only [sessionLimits, List.mem_cons, List.mem_append,
            List.mem_flatMap]
          exact Or.inr (Or.inr ⟨p, hp, List.mem_cons.mp hl⟩)
        rcases List.mem_cons.mp hx with h | h
        · exact ⟨cfg.feeLimit, feeMem, by rw [h]; rfl⟩
        · rcases List.mem_cons.mp h with h' | h'
          · exact ⟨p.valueLimit, hmemP _ (List.mem_cons_self _ _),
              by rw [h']; rfl⟩
          · rcases List.mem_map.mp h' with ⟨c, hc, hcx⟩
            exact ⟨c.limit, hmemP _ (List.mem_cons.mpr (Or.inr
              (List.mem_map.mpr ⟨c, hc, rfl⟩))), by rw [← hcx]; rfl⟩

/-- Witness for C5: a session whose fee limit and single transfer policy are
`Allowance` limits with period 3600; at timestamps 3600 and 7199 both
produced bucket IDs are 1, at 7200 they are 2, as the claim instantiates. -/
theorem get_period_ids_buckets_witness :
    (∃ l ∈ sessionLimits
        { signer := "0xs", expiresAt := 0,
          feeLimit := ⟨2, 100, 3600⟩, callPolicies := [],
          transferPolicies := [⟨"0xt", 5, ⟨2, 50, 3600⟩⟩] },
      1 = if l.limitType = limitTypeAllowance ∧ 0 < l.period then
            3600 / l.period
          else 0) ∧
    get_period_ids_for_transaction
      { signer := "0xs", expiresAt := 0, feeLimit := ⟨2, 100, 3600⟩,
        callPolicies := [],
        transferPolicies := [⟨"0xt", 5, ⟨2, 50, 3600⟩⟩] } "0xt" none 3600 =
      [1, 1] ∧
    get_period_ids_for_transaction
      { signer := "0xs", expiresAt := 0, feeLimit := ⟨2, 100, 3600⟩,
        callPolicies := [],
        transferPolicies := [⟨"0xt", 5, ⟨2, 50, 3600⟩⟩] } "0xt" none 7199 =
      [1, 1] ∧
    get_period_ids_for_transaction
      { signer := "0xs", expiresAt := 0, feeLimit := ⟨2, 100, 3600⟩,
        callPolicies := [],
        transferPolicies := [⟨"0xt", 5, ⟨2, 50, 3600⟩⟩] } "0xt" none 7200 =
      [2, 2] :=
  ⟨get_period_ids_buckets _ "0xt" none 3600 1 (by decide),
    by decide, by decide, by decide⟩

/-- Claim C6: when no transfer policy matches the target (exactly or via the
zero-address wildcard) and no call policy matches target and selector
(exactly or via the wildcard selector), `get_period_ids_for_transaction`
returns the empty list (and, being a total function of its parsed inputs,
raises nothing). -/
theorem get_period_ids_no_policy_empty (cfg : SessionConfig) (target : String)
    (selector : Option String) (timestamp : Nat)
    (htp : ∀ p ∈ cfg.transferPolicies, transferPolicyMatches p target = false)
    (hcp : ∀ p ∈ cfg.callPolicies, ∀ s, selector = some s →
      callPolicyMatches p target s = false) :
    get_period_ids_for_transaction cfg target selector timestamp = [] := by
  have hft : cfg.transferPolicies.find?
      (fun p => transferPolicyMatches p target) = none :=
    List.find?_eq_none.mpr (fun p hp => by simp [htp p hp])
  unfold get_period_ids_for_transaction
  rcases selector with _ | s
  · simp [hft]
  · have hfc : cfg.callPolicies.find?
        (fun p => callPolicyMatches p target s) = none :=
      List.find?_eq_none.mpr (fun p hp => by simp [hcp p hp s rfl])
    by_cases hs : s.length < 10 <;> simp [hs, hft, hfc]

/-- Witness for C6: a session with one transfer policy and one call policy,
neither matching the queried target/selector. -/
theorem get_period_ids_no_policy_empty_witness :
    get_period_ids_for_transaction
      { signer := "0xs", expiresAt := 0, feeLimit := ⟨2, 100, 3600⟩,
        callPolicies := [⟨"0xaa", "0x12345678", 0, ⟨0, 0, 0⟩, []⟩],
        transferPolicies := [⟨"0xbb", 5, ⟨2, 50, 3600⟩⟩] }
      "0xcc" (some "0x99999999") 100 = [] :=
  get_period_ids_no_policy_empty _ "0xcc" (some "0x99999999") 100
    (by decide) (by intro p hp s hs; cases hs; revert p hp; decide)

/-!
## Transaction preparation (claim C3)

`prepare_transaction` (`agent_transaction.py` lines 14–55).  Its RPC reads
(`get_transaction_count`, `get_block("latest").baseFeePerGas`) are the
`nonce` and `baseFeePerGas` arguments here; given them the body is pure (the
`try/except → None` wrapper only fires on RPC failure).
-/

/-- `CHAIN["id"]` from `agent_config.py` (Cronos zkEVM Testnet). -/
def chainIdConst : Nat := 240

/-- The transaction-parameter dictionary built by `prepare_transaction`. -/
structure TxPrepared where
  txType : Nat
  fromAddr : String
  toAddr : String
  gasLimit : Nat
  gasPerPubdataByteLimit : Nat
  maxFeePerGas : Nat
  maxPriorityFeePerGas : Nat
  paymaster : Nat
  nonce : Nat
  value : Nat
  data : String
  factoryDeps : List String
  paymasterInput : String
  chainId : Nat
deriving DecidableEq, Repr

/-- Model of `prepare_transaction` (`agent_transaction.py` lines 14–55).
Line 26 computes `max_fee_per_gas = int(base_fee * 2.5)` (exactly
`5 * baseFee / 2` for the integer base fees involved) into a local that the
function never reads again; the returned dictionary hardcodes
`"maxFeePerGas": 6250000000000` (line 39). -/
def prepare_transaction (fromAddr : String) (nonce : Nat)
    (baseFeePerGas : Nat) (targetAddress : String) (amount : Nat) :
    TxPrepared :=
  let _maxFeePerGasComputed := 5 * baseFeePerGas / 2
  let toAddr :=
    if targetAddress.startsWith "0x" then targetAddress
    else "0x" ++ targetAddress
  { txType := 113
    fromAddr := fromAddr
    toAddr := toAddr
    gasLimit := 196807
    gasPerPubdataByteLimit := 50000
    maxFeePerGas := 6250000000000
    maxPriorityFeePerGas := 0
    paymaster := 0
    nonce := nonce
    value := amount
    data := "0x"
    factoryDeps := []
    paymasterInput := "0x"
    chainId := chainIdConst }

/-- Claim C3 is contradicted by the code: against a chain whose current base
fee is 4, the prepared transaction's `maxFeePerGas` is the hardcoded
6250000000000, not `2.5 × 4 = 10` (the `2.5 × baseFee` local computed on
line 26 is dead); `maxPriorityFeePerGas = 0` does hold. -/
theorem prepare_transaction_hardcodes_max_fee :
    (prepare_transaction "0xfrom" 1 4 "0xto" 0).maxFeePerGas =
      6250000000000 ∧
    (prepare_transaction "0xfrom" 1 4 "0xto" 0).maxPriorityFeePerGas = 0 ∧
    (6250000000000 : Nat) ≠ 5 * 4 / 2 :=
  ⟨rfl, rfl, by decide⟩

/-!
## RLP serialization (claim C2)

`serialize_transaction` of `agent_transaction.py` (lines 297–388), the
definition that shadows the import from `agent_sign` and is the one
`send_transaction` calls.  The Python function returns the hex string
`"0x71" + rlp.encode(fields).hex()`; we model its byte content,
`0x71 ‖ RLP(fields)`.
-/

theorem bytePairs_append_pair (a b : Nat) :
    ∀ ys : List Nat, ys.length % 2 = 0 →
      bytePairs (ys ++ [a, b]) = bytePairs ys ++ [16 * a + b]
  | [], _ => rfl
  | [x], h => by simp at h
  | x :: y :: t, h => by
    have ht : t.length % 2 = 0 := by
      simp only [List.length_cons] at h
      omega
    simp only [List.cons_append, bytePairs]
    exact congrArg (List.cons (16 * x + y)) (bytePairs_append_pair a b t ht)

theorem bytesOfHexDigits_append_pair (a b : Nat) (xs : List Nat) :
    bytesOfHexDigits (xs ++ [a, b]) = bytesOfHexDigits xs ++ [16 * a + b] := by
  unfold bytesOfHexDigits
  have hlen : (xs ++ [a, b]).length = xs.length + 2 := by simp
  by_cases h : xs.length % 2 = 1
  · rw [if_pos (by rw [hlen]; omega), if_pos h]
    rw [show (0 :: (xs ++ [a, b])) = (0 :: xs) ++ [a, b] by simp]
    exact bytePairs_append_pair a b (0 :: xs) (by simp; omega)
  · rw [if_neg (by rw [hlen]; omega), if_neg h]
    exact bytePairs_append_pair a b xs (by omega)

theorem minBEBytes_ge (n : Nat) (h : 256 ≤ n) :
    minBEBytes n = minBEBytes (n / 256) ++ [n % 256] := by
  have hn : 0 < n := by omega
  have hd : 0 < n / 256 := Nat.div_pos h (by norm_num)
  unfold minBEBytes
  rw [if_neg (by omega), if_neg (by omega),
    Nat.digits_def' (by norm_num : (1:Nat) < 256) hn]
  simp

/-- `to_bytes(hex(n)[2:])` from the serializer: for positive `n` this is
exactly the minimal big-endian byte string of `n`. -/
theorem bytesOfHexDigits_hexDigitsOfNat (n : Nat) (hn : 0 < n) :
    bytesOfHexDigits (hexDigitsOfNat n) = minBEBytes n := by
  induction n using Nat.strong_induction_on with
  | _ n ih =>
    have hn0 : n ≠ 0 := by omega
    have h16 : (1:Nat) < 16 := by norm_num
    have h256' : (1:Nat) < 256 := by norm_num
    rcases Nat.lt_or_ge n 256 with h256 | h256
    · rcases Nat.lt_or_ge n 16 with hlt | hge
      · have hdig : Nat.digits 16 n = [n] := by
          rw [Nat.digits_def' h16 hn, Nat.div_eq_of_lt hlt,
            Nat.mod_eq_of_lt hlt]
          simp
        have hdig256 : Nat.digits 256 n = [n] := by
          rw [Nat.digits_def' h256' hn, Nat.div_eq_of_lt (by omega),
            Nat.mod_eq_of_lt (by omega)]
          simp
        have e1 : hexDigitsOfNat n = [n] := by
          simp [hexDigitsOfNat_eq, hn0, hdig]
        have e2 : minBEBytes n = [n] := by
          simp [minBEBytes, hn0, hdig256]
        rw [e1, e2]
        simp [bytesOfHexDigits, bytePairs]
      · have hq1 : 0 < n / 16 := Nat.div_pos hge (by norm_num)
        have hq2 : n / 16 < 16 := by omega
        have hdig : Nat.digits 16 n = [n % 16, n / 16] := by
          rw [Nat.digits_def' h16 hn, Nat.digits_def' h16 hq1,
            Nat.div_eq_of_lt hq2, Nat.mod_eq_of_lt hq2]
          simp
        have hdig256 : Nat.digits 256 n = [n] := by
          rw [Nat.digits_def' h256' hn, Nat.div_eq_of_lt (by omega),
            Nat.mod_eq_of_lt (by omega)]
          simp
        have e1 : hexDigitsOfNat n = [n / 16, n % 16] := by
          simp [hexDigitsOfNat_eq, hn0, hdig]
        have e2 : minBEBytes n = [n] := by
          simp [minBEBytes, hn0, hdig256]
        rw [e1, e2]
        have hpair : 16 * (n / 16) + n % 16 = n := by omega
        simp [bytesOfHexDigits, bytePairs, hpair]
    · have hq : 0 < n / 256 := Nat.div_pos h256 (by norm_num)
      have hq0 : n / 256 ≠ 0 := by omega
      have hq16 : 0 < n / 16 := Nat.div_pos (by omega) (by norm_num)
      have hdd : n / 16 / 16 = n / 256 := by
        rw [Nat.div_div_eq_div_mul]
      have hdig : Nat.digits 16 n =
          n % 16 :: n / 16 % 16 :: Nat.digits 16 (n / 256) := by
        rw [Nat.digits_def' h16 hn, Nat.digits_def' h16 hq16, hdd]
      have hrev : hexDigitsOfNat n =
          hexDigitsOfNat (n / 256) ++ [n / 16 % 16, n % 16] := by
        simp [hexDigitsOfNat_eq, hn0, hq0, hdig]
      have hmod : 16 * (n / 16 % 16) + n % 16 = n % 256 := by
        have : n % (16 * 16) = n % 16 + 16 * (n / 16 % 16) := Nat.mod_mul
        omega
      rw [hrev, bytesOfHexDigits_append_pair, ih (n / 256) (by omega) hq,
        minBEBytes_ge n h256, hmod]

/-- RLP items: byte strings and (nested) lists, as accepted by Python
`rlp.encode`. -/
inductive Rlp where
  | bs (bytes : List Nat)
  | ls (items : List Rlp)

/-- RLP length header: short form `base + len` for payloads up to 55 bytes,
else `base + 55 + len(len-bytes)` followed by the big-endian length. -/
def rlpLenHeader (base : Nat) (len : Nat) : List Nat :=
  if len ≤ 55 then [base + len]
  else (base + 55 + (minBEBytes len).length) :: minBEBytes len

/-- Canonical RLP encoding (Python `rlp.encode`): a single byte below `0x80`
stands for itself; any other byte string gets a `0x80`-based header; a list
gets a `0xc0`-based header over its concatenated encoded items. -/
def rlpEncode : Rlp → List Nat
  | Rlp.bs b =>
    if b.length = 1 ∧ b.headD 0 < 128 then b
    else rlpLenHeader 128 b.length ++ b
  | Rlp.ls items =>
    let payload := (items.attach.map (fun x => rlpEncode x.1)).flatten
    rlpLenHeader 192 payload.length ++ payload
decreasing_by
  simp_wf
  have := List.sizeOf_lt_of_mem x.2
  omega

/-- The signed-transaction dictionary fields read by `serialize_transaction`
(`agent_transaction.py` lines 297–388).  Hex-string fields (`to`, `from`,
`data`, `customSignature`) are digit lists; `factoryDeps` entries are byte
strings; the dead `paymasterInput` read (computed on lines 353–355 but never
placed in the list — slot 15 is the literal `[]`) is omitted. -/
structure SignedTx where
  nonce : Nat
  maxPriorityFeePerGas : Nat
  maxFeePerGas : Nat
  gasLimit : Nat
  toAddr : List Nat
  value : Nat
  data : List Nat
  chainId : Nat
  fromAddr : List Nat
  gasPerPubdataByteLimit : Nat
  factoryDeps : List (List Nat)
  customSignature : List Nat

/-- `to_bytes(hex(n)[2:])`: hex digits of `n`, odd-length-padded, as bytes. -/
def scalarBytes (n : Nat) : List Nat := bytesOfHexDigits (hexDigitsOfNat n)

/-- Model of `serialize_transaction` (`agent_transaction.py` lines 297–388).
The zero/empty truthiness guards of lines 303–327 are the `if … ≠ 0`
conditions; `to`/`from`/`data` guards collapse because an empty hex string
converts to the empty byte string either way; `chainId` (line 330) and
`gasPerPubdataByteLimit` (presence-checked only, line 340) are converted
unguarded.  The result models `"0x71" + rlp.encode(list).hex()`. -/
def serialize_transaction (tx : SignedTx) : List Nat :=
  113 ::
    rlpEncode (Rlp.ls
      [Rlp.bs (if tx.nonce ≠ 0 then scalarBytes tx.nonce else []),
        Rlp.bs (if tx.maxPriorityFeePerGas ≠ 0 then
          scalarBytes tx.maxPriorityFeePerGas else []),
        Rlp.bs (if tx.maxFeePerGas ≠ 0 then scalarBytes tx.maxFeePerGas
          else []),
        Rlp.bs (if tx.gasLimit ≠ 0 then scalarBytes tx.gasLimit else []),
        Rlp.bs (bytesOfHexDigits tx.toAddr),
        Rlp.bs (if tx.value ≠ 0 then scalarBytes tx.value else []),
        Rlp.bs (bytesOfHexDigits tx.data),
        Rlp.bs (scalarBytes tx.chainId),
        Rlp.bs [],
        Rlp.bs [],
        Rlp.bs (scalarBytes tx.chainId),
        Rlp.bs (bytesOfHexDigits tx.fromAddr),
        Rlp.bs (scalarBytes tx.gasPerPubdataByteLimit),
        Rlp.ls (tx.factoryDeps.map Rlp.bs),
        Rlp.bs (bytesOfHexDigits tx.customSignature),
        Rlp.ls []])

theorem scalar_slot_minBE (n : Nat) :
    (if n ≠ 0 then scalarBytes n else []) = minBEBytes n := by
  by_cases h : n = 0
  · subst h
    simp [minBEBytes]
  · rw [if_pos h]
    exact bytesOfHexDigits_hexDigitsOfNat n (Nat.pos_of_ne_zero h)

/-- Claim C2: for every signed transaction (whose `chainId` and
`gasPerPubdataByteLimit` are positive, as `sign_transaction` guarantees with
240 and 50000), the serializer output is the byte `0x71` followed by the RLP
encoding of exactly the 16-element list `[nonce, maxPriorityFeePerGas,
maxFeePerGas, gasLimit, to, value, data, chainId, "", "", chainId, from,
gasPerPubdataByteLimit, factoryDeps, customSignature, paymasterParams]`,
each scalar as its minimal big-endian byte string; and the value slot of a
zero-value transaction is the empty byte string, since `minBEBytes 0 = []`.
-/
theorem serialize_transaction_is_typed_rlp (tx : SignedTx)
    (hc : 0 < tx.chainId) (hg : 0 < tx.gasPerPubdataByteLimit) :
    serialize_transaction tx = 113 ::
      rlpEncode (Rlp.ls
        [Rlp.bs (minBEBytes tx.nonce),
          Rlp.bs (minBEBytes tx.maxPriorityFeePerGas),
          Rlp.bs (minBEBytes tx.maxFeePerGas),
          Rlp.bs (minBEBytes tx.gasLimit),
          Rlp.bs (bytesOfHexDigits tx.toAddr),
          Rlp.bs (minBEBytes tx.value),
          Rlp.bs (bytesOfHexDigits tx.data),
          Rlp.bs (minBEBytes tx.chainId),
          Rlp.bs [],
          Rlp.bs [],
          Rlp.bs (minBEBytes tx.chainId),
          Rlp.bs (bytesOfHexDigits tx.fromAddr),
          Rlp.bs (minBEBytes tx.gasPerPubdataByteLimit),
          Rlp.ls (tx.factoryDeps.map Rlp.bs),
          Rlp.bs (bytesOfHexDigits tx.customSignature),
          Rlp.ls []]) ∧
    minBEBytes 0 = [] := by
  constructor
  · unfold serialize_transaction
    rw [scalar_slot_minBE tx.nonce, scalar_slot_minBE tx.maxPriorityFeePerGas,
      scalar_slot_minBE tx.maxFeePerGas, scalar_slot_minBE tx.gasLimit,
      scalar_slot_minBE tx.value,
      show scalarBytes tx.chainId = minBEBytes tx.chainId from
        bytesOfHexDigits_hexDigitsOfNat _ hc,
      show scalarBytes tx.gasPerPubdataByteLimit =
          minBEBytes tx.gasPerPubdataByteLimit from
        bytesOfHexDigits_hexDigitsOfNat _ hg]
  · simp [minBEBytes]

/-- Witness for C2: a concrete signed transaction with the values
`sign_transaction` produces (`chainId = 240`, `gasPerPubdataByteLimit =
50000`) and `value = 0`. -/
theorem serialize_transaction_is_typed_rlp_witness :
    serialize_transaction
      { nonce := 7, maxPriorityFeePerGas := 0, maxFeePerGas := 6250000000000,
        gasLimit := 196807, toAddr := [1, 2], value := 0, data := [],
        chainId := 240, fromAddr := [3, 4], gasPerPubdataByteLimit := 50000,
        factoryDeps := [], customSignature := [10, 11, 12, 13] } = 113 ::
      rlpEncode (Rlp.ls
        [Rlp.bs (minBEBytes 7),
          Rlp.bs (minBEBytes 0),
          Rlp.bs (minBEBytes 6250000000000),
          Rlp.bs (minBEBytes 196807),
          Rlp.bs (bytesOfHexDigits [1, 2]),
          Rlp.bs (minBEBytes 0),
          Rlp.bs (bytesOfHexDigits []),
          Rlp.bs (minBEBytes 240),
          Rlp.bs [],
          Rlp.bs [],
          Rlp.bs (minBEBytes 240),
          Rlp.bs (bytesOfHexDigits [3, 4]),
          Rlp.bs (minBEBytes 50000),
          Rlp.ls (List.map Rlp.bs []),
          Rlp.bs (bytesOfHexDigits [10, 11, 12, 13]),
          Rlp.ls []]) ∧
    minBEBytes 0 = [] :=
  serialize_transaction_is_typed_rlp
    { nonce := 7, maxPriorityFeePerGas := 0, maxFeePerGas := 6250000000000,
      gasLimit := 196807, toAddr := [1, 2], value := 0, data := [],
      chainId := 240, fromAddr := [3, 4], gasPerPubdataByteLimit := 50000,
      factoryDeps := [], customSignature := [10, 11, 12, 13] }
    (by decide) (by decide)

/-!
## ABI encoder (`agent_encode_abi.py`)

`TypeSpec` dictionaries (`{"type": …, "components": …, "name": …}`) are the
closed variant `AbiParam`: the array regex of `get_array_components` becomes
the `arrayP` constructor (`"tuple[]"` with components is
`arrayP (tupleP …) none`), `"uintN"`/`"intN"` become `numP false/true` (the
encoder ignores the bit width and always masks/pads to 32 bytes), and
`"bytes"`/`"bytesN"` become `bytesP none/(some N)`.  Values are `AbiVal`:
`vhex` is a Python `"0x…"` string, `vnum` an int (or a decimal string, which
`number_to_hex` `int()`-parses to the same integer), `vstr` a non-hex string
as its UTF-8 bytes, and `vlist`/`vdict` a list/dict.  Raising is `none`.
-/

inductive AbiParam where
  | address
  | boolP
  | numP (signed : Bool)
  | bytesP (sz : Option Nat)
  | stringP
  | tupleP (components : List (String × AbiParam))
  | arrayP (inner : AbiParam) (len : Option Nat)

inductive AbiVal where
  | vhex (digits : List Nat)
  | vbool (b : Bool)
  | vnum (i : Int)
  | vstr (utf8 : List Nat)
  | vlist (vs : List AbiVal)
  | vdict (fields : List (String × AbiVal))

/-- The `{dynamic, encoded}` pair every `encode_*` helper returns. -/
structure Prepared where
  dynamic : Bool
  encoded : List Nat
deriving DecidableEq, Repr

/-- `static_size` of `encode_params` (`agent_encode_abi.py` lines 294–296). -/
def static_size_of (ps : List Prepared) : Nat :=
  ps.foldl (fun acc p => acc + if p.dynamic then 32 else hex_size p.encoded) 0

/-- The static/dynamic split of `encode_params` (lines 298–309): heads are
inline encodings or `number_to_hex(static_size + dynamic_size)` offset words;
tails are the dynamic payloads in order. -/
def heads_tails : List Prepared → Nat → Nat → List Nat × List Nat
  | [], _, _ => ([], [])
  | p :: ps, staticSize, dynSize =>
    if p.dynamic then
      let rest := heads_tails ps staticSize (dynSize + hex_size p.encoded)
      (hexWord (staticSize + dynSize) ++ rest.1, p.encoded ++ rest.2)
    else
      let rest := heads_tails ps staticSize dynSize
      (p.encoded ++ rest.1, rest.2)

/-- Model of `encode_params(prepared_params)` (lines 291–312). -/
def encode_params (ps : List Prepared) : List Nat :=
  (heads_tails ps (static_size_of ps) 0).1 ++
    (heads_tails ps (static_size_of ps) 0).2

/-- Model of `encode_address` (lines 144–148): `is_address` demands `0x` plus
40 hex characters; the `.lower()` is the identity on digit lists. -/
def encode_address : AbiVal → Option Prepared
  | AbiVal.vhex d =>
    if d.length = 40 then some ⟨false, pad_hex d PadDir.left 32⟩ else none
  | _ => none

/-- Model of `encode_bool` (lines 151–155). -/
def encode_bool : AbiVal → Option Prepared
  | AbiVal.vbool b =>
    some ⟨false, pad_hex (if b then [0, 1] else [0, 0]) PadDir.left 32⟩
  | _ => none

/-- Model of `encode_number` (lines 158–160) with `number_to_hex`'s value
dispatch (lines 58–79): an int is masked/two's-complemented and padded; a
`"0x…"` string is padded as-is; booleans and non-numeric values raise
(decimal strings are the `vnum` of their parsed value). -/
def encode_number (signed : Bool) : AbiVal → Option Prepared
  | AbiVal.vnum i => some ⟨false, number_to_hex i 32 signed⟩
  | AbiVal.vhex d => some ⟨false, pad_hex d PadDir.left 32⟩
  | _ => none

/-- Model of `encode_bytes` (lines 205–232). -/
def encode_bytes (sz : Option Nat) : AbiVal → Option Prepared
  | AbiVal.vhex d =>
    match sz with
    | none =>
      let bytesSize := hex_size d
      let padded :=
        if bytesSize % 32 ≠ 0 then
          pad_hex d PadDir.right ((bytesSize + 31) / 32 * 32)
        else d
      some ⟨true, hexWord bytesSize ++ padded⟩
    | some k =>
      if hex_size d = k then some ⟨false, pad_hex d PadDir.right 32⟩
      else none
  | _ => none

/-- The 32-byte chunking loop of `encode_string` (lines 244–252): successive
32-byte (64-digit) slices, each right-padded to 32 bytes. -/
def chunkPad32 (h : List Nat) : List Nat :=
  if h.isEmpty then []
  else pad_hex (h.take 64) PadDir.right 32 ++ chunkPad32 (h.drop 64)
termination_by h.length
decreasing_by
  simp only [List.length_drop]
  cases h with
  | nil => simp_all
  | cons a t => simp only [List.length_cons]; omega

/-- Model of `encode_string` (lines 235–255): the string's UTF-8 bytes as
hex, a length word, and right-padded 32-byte chunks.  (A literal `"0x…"`
string given to the `string` type would be UTF-8 encoded by Python; no caller
does that and it is left unmodeled.) -/
def encode_string : AbiVal → Option Prepared
  | AbiVal.vstr utf8 =>
    let hexv := utf8.flatMap (fun b => [b / 16, b % 16])
    some ⟨true, hexWord (hex_size hexv) ++ chunkPad32 hexv⟩
  | _ => none

/-- Python dict lookup for tuple components (`value[component_name]`).
Source dicts have distinct keys, so first-match lookup models them. -/
def assocLookup (fields : List (String × AbiVal)) (nm : String) :
    Option AbiVal :=
  (fields.find? (fun f => f.1 == nm)).map (fun f => f.2)

mutual

/-- Model of `prepare_param(param, value)` (lines 115–141) together with
`encode_array` (163–202) and `encode_tuple` (258–288).  Array values must be
lists, except that a dict without a `"type"` key is wrapped as a singleton
list (lines 168–172).  For a fixed-size array the declared length is checked
against the value length before the items are prepared.  A tuple value is
read positionally from a list (an out-of-range index raises) or by component
name from a dict (a missing or empty name ends in a raise: `value[i]` on a
dict is a `KeyError`, and a `None` component value fails in every encoder).
-/
def prepare_param : AbiParam → AbiVal → Option Prepared
  | AbiParam.address, v => encode_address v
  | AbiParam.boolP, v => encode_bool v
  | AbiParam.numP signed, v => encode_number signed v
  | AbiParam.bytesP sz, v => encode_bytes sz v
  | AbiParam.stringP, v => encode_string v
  | AbiParam.tupleP comps, v =>
    match v with
    | AbiVal.vlist vs =>
      match prepare_comps_list comps vs with
      | none => none
      | some ps =>
        some ⟨ps.any (fun q => q.dynamic),
          if ps.any (fun q => q.dynamic) then encode_params ps
          else (ps.map (fun q => q.encoded)).flatten⟩
    | AbiVal.vdict fs =>
      match prepare_comps_dict comps fs with
      | none => none
      | some ps =>
        some ⟨ps.any (fun q => q.dynamic),
          if ps.any (fun q => q.dynamic) then encode_params ps
          else (ps.map (fun q => q.encoded)).flatten⟩
    | _ => none
  | AbiParam.arrayP inner len, AbiVal.vlist vs => encode_array_vals inner len vs
  | AbiParam.arrayP inner len, AbiVal.vdict fs =>
    if (fs.map Prod.fst).contains "type" then none
    else encode_array_vals inner len [AbiVal.vdict fs]
  | AbiParam.arrayP _ _, _ => none
termination_by p _ => (sizeOf p, 0)

/-- The body of `encode_array` (lines 163–202) once the value has been
normalized to a list: fixed-size arrays check the declared length, become
dynamic when any item is, and are never length-prefixed; dynamic arrays are
always dynamic and carry `number_to_hex(len(prepared_params))` before the
head/tail encoding of the items (the length word alone when empty). -/
def encode_array_vals (inner : AbiParam) (len : Option Nat)
    (vs : List AbiVal) : Option Prepared :=
  match len with
  | some k =>
    if vs.length = k then
      match prepare_items inner vs with
      | none => none
      | some ps =>
        if ps.any (fun q => q.dynamic) then
          some ⟨true, encode_params ps⟩
        else some ⟨false, (ps.map (fun q => q.encoded)).flatten⟩
    else none
  | none =>
    match prepare_items inner vs with
    | none => none
    | some ps =>
      if ps.isEmpty then some ⟨true, hexWord ps.length⟩
      else some ⟨true, hexWord ps.length ++ encode_params ps⟩
termination_by (sizeOf inner, vs.length + 2)

/-- The item loop of `encode_array` (lines 182–186). -/
def prepare_items (inner : AbiParam) : List AbiVal → Option (List Prepared)
  | [] => some []
  | v :: vs =>
    match prepare_param inner v with
    | none => none
    | some p =>
      match prepare_items inner vs with
      | none => none
      | some ps => some (p :: ps)
termination_by vs => (sizeOf inner, vs.length + 1)

/-- The component loop of `encode_tuple` over a positional (list) value. -/
def prepare_comps_list :
    List (String × AbiParam) → List AbiVal → Option (List Prepared)
  | [], _ => some []
  | _ :: _, [] => none
  | (_, c) :: rest, w :: ws =>
    match prepare_param c w with
    | none => none
    | some p =>
      match prepare_comps_list rest ws with
      | none => none
      | some ps => some (p :: ps)
termination_by comps _ => (sizeOf comps, 0)

/-- The component loop of `encode_tuple` over a named (dict) value. -/
def prepare_comps_dict :
    List (String × AbiParam) → List (String × AbiVal) →
      Option (List Prepared)
  | [], _ => some []
  | (nm, c) :: rest, fs =>
    if nm = "" then none
    else
      match assocLookup fs nm with
      | none => none
      | some w =>
        match prepare_param c w with
        | none => none
        | some p =>
          match prepare_comps_dict rest fs with
          | none => none
          | some ps => some (p :: ps)
termination_by comps _ => (sizeOf comps, 0)

end

/-- Model of `prepare_params` (lines 107–112) with the length check of
`encode_abi_params_values` (lines 95–98). -/
def prepare_params_list :
    List AbiParam → List AbiVal → Option (List Prepared)
  | [], [] => some []
  | [], _ :: _ => none
  | _ :: _, [] => none
  | p :: ps, v :: vs =>
    match prepare_param p v with
    | none => none
    | some q =>
      match prepare_params_list ps vs with
      | none => none
      | some qs => some (q :: qs)

/-- Model of `encode_abi_params_values(params, values)` (lines 92–104). -/
def encode_abi_params_values (params : List AbiParam)
    (values : List AbiVal) : Option (List Nat) :=
  (prepare_params_list params values).map encode_params

theorem prepare_items_length (inner : AbiParam) :
    ∀ vs ps, prepare_items inner vs = some ps → ps.length = vs.length := by
  intro vs
  induction vs with
  | nil =>
    intro ps h
    simp [prepare_items] at h
    simp [← h]
  | cons v vt ih =>
    intro ps h
    simp only [prepare_items] at h
    rcases h1 : prepare_param inner v with _ | p <;> rw [h1] at h
    · simp at h
    · rcases h2 : prepare_items inner vt with _ | pt <;> rw [h2] at h
      · simp at h
      · simp at h
        rw [← h]
        simp [ih pt h2]

theorem encode_params_nil : encode_params [] = [] := rfl

theorem pad_hex_left_full (ds : List Nat) (size : Nat)
    (h : ds.length ≤ 2 * size) :
    (pad_hex ds PadDir.left size).length = 2 * size := by
  have hlt : ¬ size < ds.length / 2 := by omega
  simp [pad_hex, hlt]
  omega

theorem hexWord_length (n : Nat) : (hexWord n).length = 64 := by
  show (pad_hex (hexDigitsOfNat ((Int.ofNat n % (2 ^ (32 * 8) : Int)).toNat))
      PadDir.left 32).length = 64
  set m := (Int.ofNat n % (2 ^ (32 * 8) : Int)).toNat with hm_def
  have h1 : (0:Int) < 2 ^ (32 * 8) := by positivity
  have h3 := Int.emod_nonneg (Int.ofNat n) (ne_of_gt h1)
  have hm : m < 2 ^ 256 := by
    have hcast : (m : Int) < ((2 ^ 256 : Nat) : Int) := by
      calc (m : Int) = Int.ofNat n % 2 ^ (32 * 8) := by
            rw [hm_def]
            exact Int.toNat_of_nonneg h3
        _ < 2 ^ (32 * 8) := Int.emod_lt_of_pos (Int.ofNat n) h1
        _ = ((2 ^ 256 : Nat) : Int) := by norm_num
    exact_mod_cast hcast
  have hlen : (hexDigitsOfNat m).length ≤ 64 := by
    rw [hexDigitsOfNat_eq]
    by_cases h0 : m = 0
    · simp [h0]
    · rw [if_neg h0, List.length_reverse]
      have hlog : Nat.log 16 m < 64 :=
        Nat.log_lt_of_lt_pow h0
          (by calc m < 2 ^ 256 := hm
                _ = 16 ^ 64 := by norm_num)
      rw [Nat.digits_len 16 m (by norm_num) h0]
      omega
  exact pad_hex_left_full _ 32 (by omega)

/-- Claim C7: a tuple's prepared encoding is dynamic exactly when some
component's prepared encoding is dynamic, and is either the head/tail
encoding of the components or their plain concatenation — never prefixed by
a length word; a dynamic array `T[]` is always dynamic and its body is the
32-byte element-count word followed by the head/tail encoding of the
elements. -/
theorem abi_tuple_and_dynamic_array_encoding :
    (∀ comps vs ps, prepare_comps_list comps vs = some ps →
      prepare_param (AbiParam.tupleP comps) (AbiVal.vlist vs) =
        some ⟨ps.any (fun q => q.dynamic),
          if ps.any (fun q => q.dynamic) then encode_params ps
          else (ps.map (fun q => q.encoded)).flatten⟩ ∧
        ((ps.any fun q => q.dynamic) = true ↔ ∃ q ∈ ps, q.dynamic = true)) ∧
    (∀ comps fs ps, prepare_comps_dict comps fs = some ps →
      prepare_param (AbiParam.tupleP comps) (AbiVal.vdict fs) =
        some ⟨ps.any (fun q => q.dynamic),
          if ps.any (fun q => q.dynamic) then encode_params ps
          else (ps.map (fun q => q.encoded)).flatten⟩) ∧
    (∀ inner vs ps, prepare_items inner vs = some ps →
      prepare_param (AbiParam.arrayP inner none) (AbiVal.vlist vs) =
        some ⟨true, hexWord vs.length ++ encode_params ps⟩ ∧
      (hexWord vs.length).length = 64) := by
  refine ⟨?_, ?_, ?_⟩
  · intro comps vs ps h
    constructor
    · simp [prepare_param, h]
    · simp
  · intro comps fs ps h
    simp [prepare_param, h]
  · intro inner vs ps h
    refine ⟨?_, hexWord_length vs.length⟩
    have hlen : ps.length = vs.length := prepare_items_length inner vs ps h
    simp only [prepare_param, encode_array_vals, h]
    by_cases hps : ps.isEmpty
    · have : ps = [] := List.isEmpty_iff.mp hps
      subst this
      simp at hlen
      simp [← hlen, encode_params_nil]
    · simp [hps, hlen]

set_option maxRecDepth 10000 in
/-- Witness for C7: a tuple of a static `address` and a dynamic `bytes`
(prepared encoding dynamic, head/tail body, no length prefix), and the
dynamic array `uint[]` of the single value 5 (count word 1 then the head).
-/
theorem abi_tuple_and_dynamic_array_encoding_witness :
    prepare_param
      (AbiParam.tupleP [("a", AbiParam.address), ("b", AbiParam.bytesP none)])
      (AbiVal.vlist
        [AbiVal.vhex (List.replicate 40 1), AbiVal.vhex [2, 2]]) =
      some ⟨true, encode_params
        [⟨false, pad_hex (List.replicate 40 1) PadDir.left 32⟩,
          ⟨true, hexWord 1 ++ pad_hex [2, 2] PadDir.right 32⟩]⟩ ∧
    prepare_param (AbiParam.arrayP (AbiParam.numP false) none)
      (AbiVal.vlist [AbiVal.vnum 5]) =
      some ⟨true, hexWord 1 ++
        encode_params [⟨false, number_to_hex 5 32 false⟩]⟩ := by
  constructor
  · have h1 : prepare_comps_list
        [("a", AbiParam.address), ("b", AbiParam.bytesP none)]
        [AbiVal.vhex (List.replicate 40 1), AbiVal.vhex [2, 2]] =
        some [⟨false, pad_hex (List.replicate 40 1) PadDir.left 32⟩,
          ⟨true, hexWord 1 ++ pad_hex [2, 2] PadDir.right 32⟩] := by
      simp [prepare_comps_list, prepare_param, encode_address, encode_bytes,
        hex_size]
    have := (abi_tuple_and_dynamic_array_encoding.1 _ _ _ h1).1
    simpa using this
  · have h2 : prepare_items (AbiParam.numP false) [AbiVal.vnum 5] =
        some [⟨false, number_to_hex 5 32 false⟩] := by
      simp [prepare_items, prepare_param, encode_number]
    have := (abi_tuple_and_dynamic_array_encoding.2.2 _ _ _ h2).1
    simpa using this

/-!
## Validator data in `sign_transaction` (claim C1)

`get_session_params()` (`agent_encode_abi.py` lines 315–389) as an
`AbiParam` list, and the `session_values` that `sign_transaction`
(`agent_transaction.py` lines 169–181) encodes with it into the validator
data.
-/

def limit_components : List (String × AbiParam) :=
  [("limitType", AbiParam.numP false), ("limit", AbiParam.numP false),
    ("period", AbiParam.numP false)]

def constraint_components : List (String × AbiParam) :=
  [("condition", AbiParam.numP false), ("index", AbiParam.numP false),
    ("refValue", AbiParam.bytesP (some 32)),
    ("limit", AbiParam.tupleP limit_components)]

def call_policy_components : List (String × AbiParam) :=
  [("target", AbiParam.address), ("selector", AbiParam.bytesP (some 4)),
    ("maxValuePerUse", AbiParam.numP false),
    ("valueLimit", AbiParam.tupleP limit_components),
    ("constraints",
      AbiParam.arrayP (AbiParam.tupleP constraint_components) none)]

def transfer_policy_components : List (String × AbiParam) :=
  [("target", AbiParam.address), ("maxValuePerUse", AbiParam.numP false),
    ("valueLimit", AbiParam.tupleP limit_components)]

/-- `get_session_params()`: the `sessionSpec` tuple and the unnamed
`uint64[]` parameter. -/
def get_session_params : List AbiParam :=
  [AbiParam.tupleP
      [("signer", AbiParam.address), ("expiresAt", AbiParam.numP false),
        ("feeLimit", AbiParam.tupleP limit_components),
        ("callPolicies",
          AbiParam.arrayP (AbiParam.tupleP call_policy_components) none),
        ("transferPolicies",
          AbiParam.arrayP (AbiParam.tupleP transfer_policy_components) none)],
    AbiParam.arrayP (AbiParam.numP false) none]

/-- `session_values[1]` of `sign_transaction` (`agent_transaction.py` line
177): the literal `["0", "0"]`, annotated in the source as
`# empty array for uint64[]`; each string `"0"` is `int()`-parsed to 0 by
`number_to_hex`. -/
def sign_period_ids_value : AbiVal :=
  AbiVal.vlist [AbiVal.vnum 0, AbiVal.vnum 0]

/-- The validator data `sign_transaction` builds (line 181):
`encode_abi(get_session_params(), [session_value, ["0", "0"]])`. -/
def sign_validator_data (sessionValue : AbiVal) : Option (List Nat) :=
  encode_abi_params_values get_session_params
    [sessionValue, sign_period_ids_value]

set_option maxRecDepth 10000 in
/-- Claim C1 is contradicted by the code: the second top-level parameter of
the validator data is typed `uint64[]` (conjunct 1), but the value
`sign_transaction` encodes there — `["0", "0"]` — prepares to a dynamic
array of element count two (count word `hexWord 2`, conjunct 2), not to the
empty `uint64[]` the claim (and the source's own line-177 comment, and the
sibling `encode_validator_data` in `agent_encoding.py`, which passes `[]`)
describe, whose encoding would be the bare zero count word (conjuncts 3–4).
-/
theorem sign_period_ids_encodes_length_two :
    get_session_params.get? 1 =
      some (AbiParam.arrayP (AbiParam.numP false) none) ∧
    prepare_param (AbiParam.arrayP (AbiParam.numP false) none)
      sign_period_ids_value =
      some ⟨true, hexWord 2 ++ (hexWord 0 ++ hexWord 0)⟩ ∧
    prepare_param (AbiParam.arrayP (AbiParam.numP false) none)
      (AbiVal.vlist []) = some ⟨true, hexWord 0⟩ ∧
    hexWord 2 ++ (hexWord 0 ++ hexWord 0) ≠ hexWord 0 := by
  refine ⟨rfl, ?_, ?_, by decide⟩
  · simp [prepare_param, encode_array_vals, prepare_items, encode_number,
      sign_period_ids_value, encode_params, heads_tails, static_size_of,
      hexWord]
  · simp [prepare_param, encode_array_vals, prepare_items, encode_params,
      heads_tails, static_size_of, hexWord]

/-!
## Session resolution filtering (claim C4)

The filtering core of `fetch_session_config` (`agent_session.py` lines
115–211), over event logs already decoded by the chain client: a
`SessionCreated` log carries the (parsed) session spec, the session hash and
its block number; `SessionRevoked` logs are their collected hash strings.
The local lists `active_sessions` / sorted / `filtered_sessions` of the
source are the helper definitions below.  The source skips the revocation
check for a falsy (empty) session hash (line 169), so the specification
theorem assumes chain-supplied hashes are non-empty, as a `bytes32.hex()`
always is.
-/

structure CreatedEvent where
  spec : SessionConfig
  sessionHash : String
  blockNumber : Nat

/-- Lines 127–195: keep logs with `expiresAt > now` whose hash is not among
the revoked hashes (unchecked when the hash is falsy). -/
def active_sessions_of (created : List CreatedEvent) (revoked : List String)
    (now : Nat) : List CreatedEvent :=
  created.filter (fun log =>
    decide (now < log.spec.expiresAt) &&
      (log.sessionHash == "" || ! revoked.contains log.sessionHash))

/-- Line 198: `active_sessions.sort(key=blockNumber, reverse=True)` (stable
descending sort). -/
def sorted_sessions_of (created : List CreatedEvent) (revoked : List String)
    (now : Nat) : List CreatedEvent :=
  (active_sessions_of created revoked now).mergeSort
    (fun a b => decide (b.blockNumber ≤ a.blockNumber))

/-- Lines 200–208: `if signer_pub_key and active_sessions:` restrict to
case-insensitively matching signers (an empty filter string is falsy and
disables filtering, as does an empty session list). -/
def filtered_sessions_of (created : List CreatedEvent)
    (revoked : List String) (now : Nat) (signerFilter : Option String) :
    List CreatedEvent :=
  match signerFilter with
  | none => sorted_sessions_of created revoked now
  | some f =>
    if f ≠ "" ∧ ¬ (sorted_sessions_of created revoked now).isEmpty then
      (sorted_sessions_of created revoked now).filter
        (fun s => lowerStr s.spec.signer == lowerStr f)
    else sorted_sessions_of created revoked now

/-- Lines 115–211 of `fetch_session_config` given decoded logs: `None` when
no created logs were found, else the parsed session of the first remaining
entry, or `None` when none remain. -/
def fetch_session_core (created : List CreatedEvent) (revoked : List String)
    (now : Nat) (signerFilter : Option String) : Option SessionConfig :=
  if created.isEmpty then none
  else
    (filtered_sessions_of created revoked now signerFilter).head?.map
      (fun s => s.spec)

theorem filtered_sessions_none (created : List CreatedEvent)
    (revoked : List String) (now : Nat) :
    filtered_sessions_of created revoked now none =
      sorted_sessions_of created revoked now := rfl

theorem filtered_sessions_some (created : List CreatedEvent)
    (revoked : List String) (now : Nat) (f : String) :
    filtered_sessions_of created revoked now (some f) =
      if f ≠ "" ∧ ¬ (sorted_sessions_of created revoked now).isEmpty then
        (sorted_sessions_of created revoked now).filter
          (fun s => lowerStr s.spec.signer == lowerStr f)
      else sorted_sessions_of created revoked now := rfl

theorem mem_active_sessions (created : List CreatedEvent)
    (revoked : List String) (now : Nat) (x : CreatedEvent) :
    x ∈ active_sessions_of created revoked now ↔
      x ∈ created ∧ now < x.spec.expiresAt ∧
        (x.sessionHash = "" ∨ x.sessionHash ∉ revoked) := by
  simp [active_sessions_of, List.mem_filter, and_assoc]

theorem head?_pairwise_le {l : List CreatedEvent} {e : CreatedEvent}
    (hp : l.Pairwise
      (fun a b => decide (b.blockNumber ≤ a.blockNumber) = true))
    (hh : l.head? = some e) : ∀ x ∈ l, x.blockNumber ≤ e.blockNumber := by
  cases l with
  | nil => simp at hh
  | cons a t =>
    simp only [List.head?_cons, Option.some.injEq] at hh
    subst hh
    intro x hx
    rcases List.mem_cons.mp hx with h | h
    · rw [h]
    · have := (List.pairwise_cons.mp hp).1 x h
      simpa using this

theorem sorted_sessions_pairwise (created : List CreatedEvent)
    (revoked : List String) (now : Nat) :
    (sorted_sessions_of created revoked now).Pairwise
      (fun a b => decide (b.blockNumber ≤ a.blockNumber) = true) := by
  apply List.sorted_mergeSort
  · intro a b c hab hbc
    simp at hab hbc ⊢
    omega
  · intro a b
    simp [Nat.le_total]

/-- Claim C4: a created session that is expired (`expiresAt ≤ now`) or whose
hash is among the revoked hashes is never returned; the returned session is
that of a remaining active log — matching the signer filter
case-insensitively when a non-empty one is given — of maximal block number,
and `None` is returned when no such log remains. -/
theorem fetch_session_core_spec (created : List CreatedEvent)
    (revoked : List String) (now : Nat) (filt : Option String)
    (hne : ∀ log ∈ created, log.sessionHash ≠ "") :
    (∀ s, fetch_session_core created revoked now filt = some s →
      ∃ log ∈ created, s = log.spec ∧ now < log.spec.expiresAt ∧
        log.sessionHash ∉ revoked ∧
        (∀ f, filt = some f → f ≠ "" →
          lowerStr log.spec.signer = lowerStr f) ∧
        ∀ log2 ∈ created, now < log2.spec.expiresAt →
          log2.sessionHash ∉ revoked →
          (∀ f, filt = some f → f ≠ "" →
            lowerStr log2.spec.signer = lowerStr f) →
          log2.blockNumber ≤ log.blockNumber) ∧
    ((∀ log ∈ created, ¬(now < log.spec.expiresAt ∧
        log.sessionHash ∉ revoked ∧
        ∀ f, filt = some f → f ≠ "" →
          lowerStr log.spec.signer = lowerStr f)) →
      fetch_session_core created revoked now filt = none) := by
  constructor
  · intro s hs
    have hcreated : ¬ created.isEmpty = true := by
      intro h
      rw [fetch_session_core, if_pos h] at hs
      exact Option.noConfusion hs
    rw [fetch_session_core, if_neg hcreated] at hs
    obtain ⟨e, he, hespec⟩ := Option.map_eq_some'.mp hs
    have heF : e ∈ filtered_sessions_of created revoked now filt := by
      cases hF : filtered_sessions_of created revoked now filt with
      | nil =>
        rw [hF] at he
        exact Option.noConfusion he
      | cons a t =>
        rw [hF] at he
        simp only [List.head?_cons, Option.some.injEq] at he
        exact he ▸ List.mem_cons_self a t
    have heS : e ∈ sorted_sessions_of created revoked now := by
      rcases filt with _ | f
      · exact heF
      · rw [filtered_sessions_some] at heF
        by_cases hcond : f ≠ "" ∧
            ¬ (sorted_sessions_of created revoked now).isEmpty
        · rw [if_pos hcond] at heF
          exact (List.mem_filter.mp heF).1
        · rw [if_neg hcond] at heF
          exact heF
    have heA := List.mem_mergeSort.mp heS
    obtain ⟨heC, heExp, heRev⟩ :=
      (mem_active_sessions created revoked now e).mp heA
    have heRev' : e.sessionHash ∉ revoked := by
      rcases heRev with h | h
      · exact absurd h (hne e heC)
      · exact h
    refine ⟨e, heC, hespec.symm, heExp, heRev', ?_, ?_⟩
    · intro f hf hfne
      subst hf
      rw [filtered_sessions_some] at heF
      by_cases hS : (sorted_sessions_of created revoked now).isEmpty
      · rw [List.isEmpty_iff.mp hS] at heS
        exact absurd heS (List.not_mem_nil e)
      · rw [if_pos ⟨hfne, by simp [hS]⟩] at heF
        have := (List.mem_filter.mp heF).2
        simpa using this
    · intro log2 h2C h2Exp h2Rev h2Match
      have h2A : log2 ∈ active_sessions_of created revoked now :=
        (mem_active_sessions created revoked now log2).mpr
          ⟨h2C, h2Exp, Or.inr h2Rev⟩
      have h2S : log2 ∈ sorted_sessions_of created revoked now :=
        List.mem_mergeSort.mpr h2A
      have h2F : log2 ∈ filtered_sessions_of created revoked now filt := by
        rcases filt with _ | f
        · exact h2S
        · rw [filtered_sessions_some]
          by_cases hcond : f ≠ "" ∧
              ¬ (sorted_sessions_of created revoked now).isEmpty
          · rw [if_pos hcond]
            refine List.mem_filter.mpr ⟨h2S, ?_⟩
            simp [h2Match f rfl hcond.1]
          · rw [if_neg hcond]
            exact h2S
      have hpF : (filtered_sessions_of created revoked now filt).Pairwise
          (fun a b => decide (b.blockNumber ≤ a.blockNumber) = true) := by
        have hpS := sorted_sessions_pairwise created revoked now
        rcases filt with _ | f
        · exact hpS
        · rw [filtered_sessions_some]
          by_cases hcond : f ≠ "" ∧
              ¬ (sorted_sessions_of created revoked now).isEmpty
          · rw [if_pos hcond]
            exact hpS.filter _
          · rw [if_neg hcond]
            exact hpS
      exact head?_pairwise_le hpF he log2 h2F
  · intro hall
    rw [fetch_session_core]
    by_cases hc : created.isEmpty
    · rw [if_pos hc]
    · rw [if_neg hc]
      suffices hF : filtered_sessions_of created revoked now filt = [] by
        rw [hF]
        rfl
      have hactive_empty : (∀ log ∈ created, ¬(now < log.spec.expiresAt ∧
          log.sessionHash ∉ revoked)) →
          sorted_sessions_of created revoked now = [] := by
        intro h
        have hnil : active_sessions_of created revoked now = [] := by
          rw [List.eq_nil_iff_forall_not_mem]
          intro x hx
          obtain ⟨hxC, hxExp, hxRev⟩ :=
            (mem_active_sessions created revoked now x).mp hx
          have hxRev' : x.sessionHash ∉ revoked := by
            rcases hxRev with hh | hh
            · exact absurd hh (hne x hxC)
            · exact hh
          exact h x hxC ⟨hxExp, hxRev'⟩
        unfold sorted_sessions_of
        rw [hnil, List.mergeSort_nil]
      rcases filt with _ | f
      · exact hactive_empty (fun log hlog => by
          have := hall log hlog
          intro ⟨h1, h2⟩
          exact this ⟨h1, h2, by intro f hf; exact Option.noConfusion hf⟩)
      · by_cases hfe : f = ""
        · subst hfe
          rw [filtered_sessions_some, if_neg (by simp)]
          exact hactive_empty (fun log hlog => by
            have := hall log hlog
            intro ⟨h1, h2⟩
            refine this ⟨h1, h2, ?_⟩
            intro f' hf' hf'ne
            rw [Option.some.injEq] at hf'
            exact absurd hf'.symm hf'ne)
        · rw [filtered_sessions_some]
          by_cases hS : (sorted_sessions_of created revoked now).isEmpty
          · rw [if_neg (by intro hcnd; exact hcnd.2 hS)]
            exact List.isEmpty_iff.mp hS
          · rw [if_pos ⟨hfe, by simp [hS]⟩]
            apply List.filter_eq_nil_iff.mpr
            intro x hxS
            have hxA := List.mem_mergeSort.mp hxS
            obtain ⟨hxC, hxExp, hxRev⟩ :=
              (mem_active_sessions created revoked now x).mp hxA
            have hxRev' : x.sessionHash ∉ revoked := by
              rcases hxRev with h | h
              · exact absurd h (hne x hxC)
              · exact h
            have := hall x hxC
            simp only [beq_iff_eq]
            intro hmatch
            exact this ⟨hxExp, hxRev', fun f' hf' _ => by
              rw [Option.some.injEq] at hf'
              rw [← hf']
              exact hmatch⟩

/-- The session of the single created log of the C4 witness. -/
def c4_example_spec : SessionConfig :=
  { signer := "0xA", expiresAt := 100, feeLimit := ⟨0, 0, 0⟩,
    callPolicies := [], transferPolicies := [] }

/-- The single created log of the C4 witness. -/
def c4_example_log : CreatedEvent :=
  { spec := c4_example_spec, sessionHash := "ab", blockNumber := 5 }

/-- Witness for C4: one active, unrevoked created log with a non-empty
hash; with no signer filter its session is returned and is maximal. -/
theorem fetch_session_core_spec_witness :
    (∀ s, fetch_session_core [c4_example_log] [] 50 none = some s →
      ∃ log ∈ [c4_example_log], s = log.spec ∧ 50 < log.spec.expiresAt ∧
        log.sessionHash ∉ ([] : List String) ∧
        (∀ f, (none : Option String) = some f → f ≠ "" →
          lowerStr log.spec.signer = lowerStr f) ∧
        ∀ log2 ∈ [c4_example_log], 50 < log2.spec.expiresAt →
          log2.sessionHash ∉ ([] : List String) →
          (∀ f, (none : Option String) = some f → f ≠ "" →
            lowerStr log2.spec.signer = lowerStr f) →
          log2.blockNumber ≤ log.blockNumber) ∧
    ((∀ log ∈ [c4_example_log], ¬(50 < log.spec.expiresAt ∧
        log.sessionHash ∉ ([] : List String) ∧
        ∀ f, (none : Option String) = some f → f ≠ "" →
          lowerStr log.spec.signer = lowerStr f)) →
      fetch_session_core [c4_example_log] [] 50 none = none) :=
  fetch_session_core_spec [c4_example_log] [] 50 none (by
    intro log hlog
    simp only [List.mem_singleton] at hlog
    subst hlog
    simp [c4_example_log])

/-!
## EIP-712 type-string derivation (claim C8)

`encode_type` of `agent_sign.py` (lines 24–46).  A `typeDefs` mapping is an
association list of type name to field list (`{"name": …, "type": …}`); its
inner `find_type_deps` is the fueled depth-first search below (the Python
recursion needs no fuel because the visited set is bounded by the dict's
keys; fuel `d.length + 1` is shown sufficient).  `deps.remove(primary_type)`
raises a `KeyError` when `primary_type` was never collected (i.e. is not a
key of `typeDefs`), modeled by the `none` branch.
-/

structure TypeField where
  name : String
  ftype : String
deriving DecidableEq, Repr

/-- A `typeDefs` dictionary, as an association list. -/
abbrev TypeDict := List (String × List TypeField)

/-- Python `primary in types_dict` / `types_dict[primary]`.  Source dicts
have distinct keys, so first-match lookup models them; the permutation
conjunct of the C8 theorem assumes exactly that. -/
def lookupTD (d : TypeDict) (k : String) : Option (List TypeField) :=
  (d.find? (fun e => e.1 == k)).map (fun e => e.2)

/-- `field["type"].split("[")[0]` (line 34). -/
def baseTypeOf (t : String) : String := t.takeWhile (fun c => c ≠ '[')

/-- The base types of the fields of `d[p]` — what `find_type_deps` recurses
into (lines 33–35); empty when `p` is not a key. -/
def childrenOf (d : TypeDict) (p : String) : List String :=
  match lookupTD d p with
  | none => []
  | some fields => fields.map (fun f => baseTypeOf f.ftype)

/-- The children that are themselves keys of the dictionary — the ones the
search adds. -/
def keyChildrenOf (d : TypeDict) (p : String) : List String :=
  (childrenOf d p).filter (fun c => (lookupTD d c).isSome)

mutual

/-- `find_type_deps(primary, types_dict, results)` (lines 27–36), fueled:
return the accumulator when `primary` was already collected or is not a key,
else collect it and recurse into each field's base type. -/
def findTypeDepsF : Nat → TypeDict → String → List String → List String
  | 0, _, _, acc => acc
  | fuel + 1, d, p, acc =>
    if p ∈ acc ∨ lookupTD d p = none then acc
    else findDepsListF fuel d (childrenOf d p) (p :: acc)
termination_by fuel _ _ _ => (fuel, 0)

/-- The `for field in types_dict[primary]` loop of `find_type_deps`. -/
def findDepsListF : Nat → TypeDict → List String → List String → List String
  | _, _, [], acc => acc
  | fuel, d, c :: cs, acc =>
    findDepsListF fuel d cs (findTypeDepsF fuel d c acc)
termination_by fuel _ cs _ => (fuel, cs.length + 1)

end

/-- `f"{dep}({fields})"` with `",".join(f"{type} {name}")` (lines 43–45). -/
def renderDep (d : TypeDict) (nm : String) : String :=
  nm ++ "(" ++ String.intercalate ","
    (((lookupTD d nm).getD []).map (fun f => f.ftype ++ " " ++ f.name)) ++
    ")"

/-- Model of `encode_type(primary_type, types_dict)` (lines 24–46): collect
the dependency set from `primary`, remove `primary` (a `KeyError`, hence
`none`, when absent), sort the rest, and concatenate the rendered
definitions, `primary` first. -/
def encode_type (d : TypeDict) (primary : String) : Option String :=
  if primary ∈ findTypeDepsF (d.length + 1) d primary [] then
    some (String.join ((primary ::
      ((findTypeDepsF (d.length + 1) d primary []).erase primary).mergeSort
        (fun a b => decide (a ≤ b))).map (renderDep d)))
  else none

/-- Struct-dependency reachability: the types `find_type_deps` is specified
to collect — every key of `typeDefs` reachable from `primary` through field
base types. -/
inductive DepReach (d : TypeDict) (p : String) : String → Prop where
  | refl (h : lookupTD d p ≠ none) : DepReach d p p
  | step (b c : String) (hb : DepReach d p b) (hc : c ∈ childrenOf d b)
      (hk : lookupTD d c ≠ none) : DepReach d p c

theorem depReach_src_key {d : TypeDict} {p x : String}
    (h : DepReach d p x) : lookupTD d p ≠ none := by
  induction h with
  | refl hp => exact hp
  | step b c hb hc hk ih => exact ih

theorem depReach_tgt_key {d : TypeDict} {p x : String}
    (h : DepReach d p x) : lookupTD d x ≠ none := by
  induction h with
  | refl hp => exact hp
  | step b c hb hc hk ih => exact hk

theorem depReach_trans {d : TypeDict} {p b x : String}
    (h1 : DepReach d p b) (h2 : DepReach d b x) : DepReach d p x := by
  induction h2 with
  | refl hq => exact h1
  | step b' c hb hc hk ih => exact DepReach.step b' c ih hc hk

theorem findDeps_mono (d : TypeDict) :
    ∀ fuel, (∀ p acc, acc ⊆ findTypeDepsF fuel d p acc) ∧
      (∀ cs acc, acc ⊆ findDepsListF fuel d cs acc) := by
  intro fuel
  induction fuel with
  | zero =>
    refine ⟨?_, ?_⟩
    · intro p acc
      simp only [findTypeDepsF]
      exact fun x hx => hx
    · intro cs
      induction cs with
      | nil =>
        intro acc
        simp only [findDepsListF]
        exact fun x hx => hx
      | cons c ct ih =>
        intro acc x hx
        simp only [findDepsListF]
        apply ih (findTypeDepsF 0 d c acc)
        simpa only [findTypeDepsF] using hx
  | succ f ihf =>
    have hnode : ∀ p acc, acc ⊆ findTypeDepsF (f + 1) d p acc := by
      intro p acc x hx
      simp only [findTypeDepsF]
      split
      · exact hx
      · exact ihf.2 (childrenOf d p) (p :: acc) (List.mem_cons_of_mem _ hx)
    refine ⟨hnode, ?_⟩
    intro cs
    induction cs with
    | nil =>
      intro acc
      simp only [findDepsListF]
      exact fun x hx => hx
    | cons c ct ih =>
      intro acc x hx
      simp only [findDepsListF]
      exact ih (findTypeDepsF (f + 1) d c acc) (hnode c acc hx)

theorem findDeps_nodup (d : TypeDict) :
    ∀ fuel, (∀ p acc, acc.Nodup → (findTypeDepsF fuel d p acc).Nodup) ∧
      (∀ cs acc, acc.Nodup → (findDepsListF fuel d cs acc).Nodup) := by
  intro fuel
  induction fuel with
  | zero =>
    refine ⟨?_, ?_⟩
    · intro p acc h
      simpa only [findTypeDepsF] using h
    · intro cs
      induction cs with
      | nil =>
        intro acc h
        simpa only [findDepsListF] using h
      | cons c ct ih =>
        intro acc h
        simp only [findDepsListF]
        apply ih
        simpa only [findTypeDepsF] using h
  | succ f ihf =>
    have hnode : ∀ p acc, acc.Nodup → (findTypeDepsF (f + 1) d p acc).Nodup := by
      intro p acc h
      by_cases hg : p ∈ acc ∨ lookupTD d p = none
      · simpa only [findTypeDepsF, if_pos hg] using h
      · push_neg at hg
        simp only [findTypeDepsF, if_neg (not_or.mpr hg)]
        exact ihf.2 _ _ (List.nodup_cons.mpr ⟨hg.1, h⟩)
    refine ⟨hnode, ?_⟩
    intro cs
    induction cs with
    | nil =>
      intro acc h
      simpa only [findDepsListF] using h
    | cons c ct ih =>
      intro acc h
      simp only [findDepsListF]
      exact ih _ (hnode c acc h)

theorem findDeps_sound (d : TypeDict) :
    ∀ fuel,
      (∀ p acc x, x ∈ findTypeDepsF fuel d p acc →
        x ∈ acc ∨ DepReach d p x) ∧
      (∀ cs acc x, x ∈ findDepsListF fuel d cs acc →
        x ∈ acc ∨ ∃ c ∈ cs, DepReach d c x) := by
  intro fuel
  induction fuel with
  | zero =>
    refine ⟨?_, ?_⟩
    · intro p acc x hx
      left
      simpa only [findTypeDepsF] using hx
    · intro cs
      induction cs with
      | nil =>
        intro acc x hx
        left
        simpa only [findDepsListF] using hx
      | cons c ct ih =>
        intro acc x hx
        simp only [findDepsListF] at hx
        rcases ih (findTypeDepsF 0 d c acc) x hx with h | ⟨c', hc', hr'⟩
        · left
          simpa only [findTypeDepsF] using h
        · exact Or.inr ⟨c', List.mem_cons_of_mem _ hc', hr'⟩
  | succ f ihf =>
    have hnode : ∀ p acc x, x ∈ findTypeDepsF (f + 1) d p acc →
        x ∈ acc ∨ DepReach d p x := by
      intro p acc x hx
      by_cases hg : p ∈ acc ∨ lookupTD d p = none
      · left
        simpa only [findTypeDepsF, if_pos hg] using hx
      · push_neg at hg
        simp only [findTypeDepsF, if_neg (not_or.mpr hg)] at hx
        rcases ihf.2 (childrenOf d p) (p :: acc) x hx with h | ⟨c, hc, hr⟩
        · rcases List.mem_cons.mp h with h' | h'
          · subst h'
            exact Or.inr (DepReach.refl hg.2)
          · exact Or.inl h'
        · refine Or.inr (depReach_trans ?_ hr)
          exact DepReach.step p c (DepReach.refl hg.2) hc (depReach_src_key hr)
    refine ⟨hnode, ?_⟩
    intro cs
    induction cs with
    | nil =>
      intro acc x hx
      left
      simpa only [findDepsListF] using hx
    | cons c ct ih =>
      intro acc x hx
      simp only [findDepsListF] at hx
      rcases ih (findTypeDepsF (f + 1) d c acc) x hx with h | ⟨c', hc', hr'⟩
      · rcases hnode c acc x h with h' | h'
        · exact Or.inl h'
        · exact Or.inr ⟨c, List.mem_cons_self _ _, h'⟩
      · exact Or.inr ⟨c', List.mem_cons_of_mem _ hc', hr'⟩

theorem findTypeDeps_root_mem (d : TypeDict) (f : Nat) (p : String)
    (acc : List String) (hk : lookupTD d p ≠ none) :
    p ∈ findTypeDepsF (f + 1) d p acc := by
  by_cases hin : p ∈ acc
  · exact (findDeps_mono d (f + 1)).1 p acc hin
  · have hg : ¬(p ∈ acc ∨ lookupTD d p = none) := by
      push_neg
      exact ⟨hin, hk⟩
    simp only [findTypeDepsF, if_neg hg]
    exact (findDeps_mono d f).2 (childrenOf d p) (p :: acc)
      (List.mem_cons_self _ _)

theorem findDepsList_mem (d : TypeDict) (f : Nat) :
    ∀ cs acc c, c ∈ cs → lookupTD d c ≠ none →
      c ∈ findDepsListF (f + 1) d cs acc := by
  intro cs
  induction cs with
  | nil =>
    intro acc c hc
    exact absurd hc (List.not_mem_nil c)
  | cons c0 ct ih =>
    intro acc c hc hk
    simp only [findDepsListF]
    rcases List.mem_cons.mp hc with h | h
    · subst h
      exact (findDeps_mono d (f + 1)).2 ct _
        (findTypeDeps_root_mem d f c acc hk)
    · exact ih _ c h hk

def keysetOf (d : TypeDict) : Finset String := (d.map Prod.fst).toFinset

/-- How many keys of `d` the accumulator has not collected yet — the
decreasing quantity of the search. -/
def measureOf (d : TypeDict) (acc : List String) : Nat :=
  (keysetOf d \ acc.toFinset).card

theorem lookupTD_ne_none_iff (d : TypeDict) (k : String) :
    lookupTD d k ≠ none ↔ k ∈ d.map Prod.fst := by
  simp only [Ne, lookupTD, Option.map_eq_none', List.find?_eq_none,
    beq_iff_eq, List.mem_map, not_forall]
  constructor
  · rintro ⟨x, hx, hk⟩
    rw [not_not] at hk
    exact ⟨x, hx, hk⟩
  · rintro ⟨x, hx, hk⟩
    exact ⟨x, hx, by rw [not_not]; exact hk⟩

theorem measure_antitone (d : TypeDict) (acc acc' : List String)
    (h : acc ⊆ acc') : measureOf d acc' ≤ measureOf d acc := by
  apply Finset.card_le_card
  apply Finset.sdiff_subset_sdiff (Finset.Subset.refl _)
  intro x hx
  rw [List.mem_toFinset] at hx ⊢
  exact h hx

theorem measure_cons_lt (d : TypeDict) (p : String) (acc : List String)
    (hk : lookupTD d p ≠ none) (hnin : p ∉ acc) :
    measureOf d (p :: acc) < measureOf d acc := by
  apply Finset.card_lt_card
  rw [Finset.ssubset_iff_of_subset]
  · refine ⟨p, ?_, ?_⟩
    · rw [Finset.mem_sdiff]
      refine ⟨?_, ?_⟩
      · simp only [keysetOf, List.mem_toFinset]
        exact (lookupTD_ne_none_iff d p).mp hk
      · simp only [List.mem_toFinset]
        exact hnin
    · simp [Finset.mem_sdiff]
  · apply Finset.sdiff_subset_sdiff (Finset.Subset.refl _)
    intro x hx
    rw [List.mem_toFinset] at hx ⊢
    exact List.mem_cons_of_mem _ hx

theorem findDeps_closed (d : TypeDict) :
    ∀ fuel,
      (∀ p acc, measureOf d acc < fuel →
        ∀ b ∈ findTypeDepsF fuel d p acc, b ∈ acc ∨
          ∀ c ∈ keyChildrenOf d b, c ∈ findTypeDepsF fuel d p acc) ∧
      (∀ cs acc, measureOf d acc < fuel →
        ∀ b ∈ findDepsListF fuel d cs acc, b ∈ acc ∨
          ∀ c ∈ keyChildrenOf d b, c ∈ findDepsListF fuel d cs acc) := by
  intro fuel
  induction fuel with
  | zero =>
    exact ⟨fun p acc h => absurd h (Nat.not_lt_zero _),
      fun cs acc h => absurd h (Nat.not_lt_zero _)⟩
  | succ f ihf =>
    have hnode : ∀ p acc, measureOf d acc < f + 1 →
        ∀ b ∈ findTypeDepsF (f + 1) d p acc, b ∈ acc ∨
          ∀ c ∈ keyChildrenOf d b, c ∈ findTypeDepsF (f + 1) d p acc := by
      intro p acc hm b hb
      by_cases hg : p ∈ acc ∨ lookupTD d p = none
      · left
        simpa only [findTypeDepsF, if_pos hg] using hb
      · push_neg at hg
        have hkey : lookupTD d p ≠ none := hg.2
        have hnin : p ∉ acc := hg.1
        have hmeas : measureOf d (p :: acc) < f := by
          have h1 := measure_cons_lt d p acc hkey hnin
          omega
        have hres : findTypeDepsF (f + 1) d p acc =
            findDepsListF f d (childrenOf d p) (p :: acc) := by
          simp only [findTypeDepsF, if_neg (not_or.mpr hg)]
        rw [hres] at hb ⊢
        rcases ihf.2 (childrenOf d p) (p :: acc) hmeas b hb with
          hbacc | hclosed
        · rcases List.mem_cons.mp hbacc with hbp | hbacc'
          · subst hbp
            right
            intro c hc
            have hcchild : c ∈ childrenOf d b := (List.mem_filter.mp hc).1
            have hckey : lookupTD d c ≠ none := by
              have h2 := (List.mem_filter.mp hc).2
              simpa [Option.isSome_iff_ne_none] using h2
            obtain ⟨f', rfl⟩ : ∃ f', f = f' + 1 := ⟨f - 1, by omega⟩
            exact findDepsList_mem d f' (childrenOf d b) (b :: acc) c
              hcchild hckey
          · exact Or.inl hbacc'
        · exact Or.inr hclosed
    refine ⟨hnode, ?_⟩
    intro cs
    induction cs with
    | nil =>
      intro acc _ b hb
      left
      simpa only [findDepsListF] using hb
    | cons c0 ct ih =>
      intro acc hm b hb
      simp only [findDepsListF] at hb ⊢
      have hsub : acc ⊆ findTypeDepsF (f + 1) d c0 acc :=
        (findDeps_mono d (f + 1)).1 c0 acc
      have hm' : measureOf d (findTypeDepsF (f + 1) d c0 acc) < f + 1 := by
        have := measure_antitone d acc _ hsub
        omega
      rcases ih (findTypeDepsF (f + 1) d c0 acc) hm' b hb with
        hbacc' | hclosed
      · rcases hnode c0 acc hm b hbacc' with hbacc | hcl
        · exact Or.inl hbacc
        · right
          intro c hc
          exact (findDeps_mono d (f + 1)).2 ct _ (hcl c hc)
      · exact Or.inr hclosed

theorem measure_nil_lt (d : TypeDict) : measureOf d [] < d.length + 1 := by
  have h1 : (keysetOf d).card ≤ d.length := by
    calc (keysetOf d).card ≤ (d.map Prod.fst).length :=
          (d.map Prod.fst).toFinset_card_le
      _ = d.length := List.length_map _ _
  simp only [measureOf, List.toFinset_nil, Finset.sdiff_empty]
  omega

theorem findTypeDeps_complete (d : TypeDict) (p x : String)
    (h : DepReach d p x) :
    x ∈ findTypeDepsF (d.length + 1) d p [] := by
  induction h with
  | refl hq => exact findTypeDeps_root_mem d d.length p [] hq
  | step b c hb hc hk ih =>
    rcases (findDeps_closed d (d.length + 1)).1 p [] (measure_nil_lt d) b ih
      with h0 | hcl
    · exact absurd h0 (List.not_mem_nil b)
    · apply hcl
      refine List.mem_filter.mpr ⟨hc, ?_⟩
      simpa [Option.isSome_iff_ne_none] using hk

theorem findDeps_mem_iff (d : TypeDict) (p x : String) :
    x ∈ findTypeDepsF (d.length + 1) d p [] ↔ DepReach d p x := by
  constructor
  · intro hx
    rcases (findDeps_sound d (d.length + 1)).1 p [] x hx with h | h
    · exact absurd h (List.not_mem_nil x)
    · exact h
  · exact findTypeDeps_complete d p x

theorem findDeps_congr (d d' : TypeDict)
    (hlook : ∀ k, lookupTD d k = lookupTD d' k) :
    ∀ fuel,
      (∀ p acc, findTypeDepsF fuel d p acc = findTypeDepsF fuel d' p acc) ∧
      (∀ cs acc, findDepsListF fuel d cs acc = findDepsListF fuel d' cs acc)
    := by
  have hchild : ∀ p, childrenOf d p = childrenOf d' p := by
    intro p
    simp [childrenOf, hlook p]
  intro fuel
  induction fuel with
  | zero =>
    refine ⟨fun p acc => by simp only [findTypeDepsF], ?_⟩
    intro cs
    induction cs with
    | nil => intro acc; simp only [findDepsListF]
    | cons c ct ih =>
      intro acc
      simp only [findDepsListF, findTypeDepsF]
      exact ih acc
  | succ f ihf =>
    have hnode : ∀ p acc,
        findTypeDepsF (f + 1) d p acc = findTypeDepsF (f + 1) d' p acc := by
      intro p acc
      simp only [findTypeDepsF, hlook p, hchild p]
      by_cases hg : p ∈ acc ∨ lookupTD d' p = none
      · rw [if_pos hg, if_pos hg]
      · rw [if_neg hg, if_neg hg]
        exact ihf.2 _ _
    refine ⟨hnode, ?_⟩
    intro cs
    induction cs with
    | nil => intro acc; simp only [findDepsListF]
    | cons c ct ih =>
      intro acc
      simp only [findDepsListF]
      rw [hnode c acc]
      exact ih _

theorem lookupTD_perm :
    ∀ {d d' : TypeDict}, d.Perm d' → (d.map Prod.fst).Nodup →
      ∀ k, lookupTD d k = lookupTD d' k := by
  intro d d' hperm
  induction hperm with
  | nil => intro _ k; rfl
  | cons x hp ih =>
    intro hnd k
    simp only [List.map_cons, List.nodup_cons] at hnd
    have hnd' := hnd.2
    cases hB : (x.1 == k) <;>
      simp only [lookupTD, List.find?_cons, hB] <;>
      simpa only [lookupTD] using ih hnd' k
  | swap x y l =>
    intro hnd k
    have hxy : y.1 ≠ x.1 := by
      simp only [List.map_cons, List.nodup_cons, List.mem_cons] at hnd
      exact fun h => hnd.1 (Or.inl h)
    cases hBx : (x.1 == k) <;> cases hBy : (y.1 == k) <;>
      simp only [lookupTD, List.find?_cons, hBx, hBy]
    exact absurd (by rw [beq_iff_eq] at hBx hBy; rw [hBx, hBy])
      hxy
  | trans h1 h2 ih1 ih2 =>
    intro hnd k
    have hnd2 := ((h1.map Prod.fst).nodup_iff).mp hnd
    rw [ih1 hnd k, ih2 hnd2 k]

/-- Claim C8: when `primary` is a key of `typeDefs`, `encode_type` returns
the rendered `"Name(type1 field1,…)"` definition of `primary` followed by
those of exactly the struct dependencies reachable from `primary` (excluding
`primary` itself), deduplicated and lexicographically sorted; consequently
the output is invariant under the insertion order (any permutation with
distinct keys) of the `typeDefs` mapping. -/
theorem encode_type_spec (d : TypeDict) (primary : String)
    (fields : List TypeField) (hp : lookupTD d primary = some fields) :
    (∃ rest, encode_type d primary =
        some (String.join ((primary :: rest).map (renderDep d))) ∧
      List.Pairwise (fun a b : String => a ≤ b) rest ∧
      rest.Nodup ∧ primary ∉ rest ∧
      (∀ x, x ∈ rest ↔ (DepReach d primary x ∧ x ≠ primary))) ∧
    (∀ d', d.Perm d' → (d.map Prod.fst).Nodup →
      encode_type d primary = encode_type d' primary) := by
  constructor
  · have hpk : lookupTD d primary ≠ none := by
      rw [hp]
      exact fun h => Option.noConfusion h
    have hpin : primary ∈ findTypeDepsF (d.length + 1) d primary [] :=
      findTypeDeps_root_mem d d.length primary [] hpk
    have hnodup : (findTypeDepsF (d.length + 1) d primary []).Nodup :=
      (findDeps_nodup d (d.length + 1)).1 primary [] List.nodup_nil
    refine ⟨((findTypeDepsF (d.length + 1) d primary []).erase
        primary).mergeSort (fun a b => decide (a ≤ b)), ?_, ?_, ?_, ?_, ?_⟩
    · unfold encode_type
      rw [if_pos hpin]
    · have hs := @List.sorted_mergeSort String
        (fun a b : String => decide (a ≤ b))
        (fun a b c hab hbc => decide_eq_true
          (le_trans (of_decide_eq_true hab) (of_decide_eq_true hbc)))
        (fun a b => by rcases le_total a b with h | h <;> simp [h])
        ((findTypeDepsF (d.length + 1) d primary []).erase primary)
      exact hs.imp (fun h => of_decide_eq_true h)
    · exact (List.mergeSort_perm _ _).nodup_iff.mpr (hnodup.erase _)
    · intro hmem
      exact List.Nodup.not_mem_erase hnodup (List.mem_mergeSort.mp hmem)
    · intro x
      rw [List.mem_mergeSort, List.Nodup.mem_erase_iff hnodup,
        findDeps_mem_iff]
      tauto
  · intro d' hperm hnd
    have hlook := lookupTD_perm hperm hnd
    have hlen : d.length = d'.length := hperm.length_eq
    have h1 : findTypeDepsF (d.length + 1) d primary [] =
        findTypeDepsF (d'.length + 1) d' primary [] := by
      rw [← hlen]
      exact (findDeps_congr d d' hlook (d.length + 1)).1 primary []
    have hrender : renderDep d = renderDep d' := by
      funext nm
      simp [renderDep, hlook nm]
    unfold encode_type
    rw [← h1, hrender]

/-- The `typeDefs` of the C8 witness: a `Mail` struct depending on a
`Person` struct. -/
def c8_example_dict : TypeDict :=
  [("Mail", [⟨"from", "Person"⟩, ⟨"to", "Person"⟩, ⟨"note", "string"⟩]),
    ("Person", [⟨"name", "string"⟩, ⟨"wallet", "address"⟩])]

/-- Witness for C8 at the concrete two-struct dictionary. -/
theorem encode_type_spec_witness :
    (∃ rest, encode_type c8_example_dict "Mail" =
        some (String.join (("Mail" :: rest).map (renderDep
          c8_example_dict))) ∧
      List.Pairwise (fun a b : String => a ≤ b) rest ∧
      rest.Nodup ∧ "Mail" ∉ rest ∧
      (∀ x, x ∈ rest ↔ (DepReach c8_example_dict "Mail" x ∧ x ≠ "Mail"))) ∧
    (∀ d', c8_example_dict.Perm d' →
      (c8_example_dict.map Prod.fst).Nodup →
      encode_type c8_example_dict "Mail" = encode_type d' "Mail") :=
  encode_type_spec c8_example_dict "Mail"
    [⟨"from", "Person"⟩, ⟨"to", "Person"⟩, ⟨"note", "string"⟩] rfl

/-!
## Defensive session resolution over dynamic values (claim C10)

`fetch_session_config` (`agent_session.py`) and `parse_session_config`
receive dynamically shaped, possibly malformed decoded logs.  `PyVal` is the
universe of such values; attribute/subscript access, `len()`, `int()` and
`.hex()`/`.lower()` raise (`Except.error`) exactly where Python raises an
exception (`AttributeError`/`KeyError`/`IndexError`/`TypeError`/
`ValueError` are not distinguished: every relevant handler catches plain
`Exception`, and the one two-type handler on lines 152–154 catches both
errors its body can raise).
-/

inductive PyVal where
  | pynone
  | pyint (i : Int)
  | pystr (s : String)
  | pybytes (hex : String)
  | pylist (vs : List PyVal)
  | pydict (fields : List (String × PyVal))

/-- `v.get(key, default)`: only dict-likes (`AttributeDict`) have `.get`;
anything else raises `AttributeError`. -/
def pyAttrGet (v : PyVal) (key : String) (dflt : PyVal) :
    Except Unit PyVal :=
  match v with
  | PyVal.pydict fs =>
    Except.ok (((fs.find? (fun f => f.1 == key)).map (fun f => f.2)).getD
      dflt)
  | _ => Except.error ()

/-- `v[key]` for a string key: `KeyError` when missing, `TypeError` on
non-dicts. -/
def pySubscriptKey (v : PyVal) (key : String) : Except Unit PyVal :=
  match v with
  | PyVal.pydict fs =>
    match (fs.find? (fun f => f.1 == key)).map (fun f => f.2) with
    | some w => Except.ok w
    | none => Except.error ()
  | _ => Except.error ()

/-- `v[i]` for an integer index: lists/tuples and strings index,
out-of-range raises `IndexError`, anything else `TypeError`. -/
def pyIndex (v : PyVal) (i : Nat) : Except Unit PyVal :=
  match v with
  | PyVal.pylist vs =>
    match vs.get? i with
    | some w => Except.ok w
    | none => Except.error ()
  | PyVal.pystr s =>
    match s.data.get? i with
    | some c => Except.ok (PyVal.pystr (String.singleton c))
    | none => Except.error ()
  | _ => Except.error ()

/-- `len(v)`: sequences, strings and dicts only. -/
def pyLen : PyVal → Except Unit Nat
  | PyVal.pystr s => Except.ok s.length
  | PyVal.pylist vs => Except.ok vs.length
  | PyVal.pydict fs => Except.ok fs.length
  | _ => Except.error ()

/-- Python truthiness of the values above. -/
def pyTruthy : PyVal → Bool
  | PyVal.pynone => false
  | PyVal.pyint i => decide (i ≠ 0)
  | PyVal.pystr s => decide (s ≠ "")
  | PyVal.pybytes h => decide (h ≠ "")
  | PyVal.pylist vs => ! vs.isEmpty
  | PyVal.pydict fs => ! fs.isEmpty

/-- `v.hex()`: bytes only. -/
def pyHexAttr : PyVal → Except Unit String
  | PyVal.pybytes h => Except.ok h
  | _ => Except.error ()

/-- `hasattr(v, "get")`. -/
def hasattrGet : PyVal → Bool
  | PyVal.pydict _ => true
  | _ => false

/-- `hasattr(v, "hex")`. -/
def hasattrHex : PyVal → Bool
  | PyVal.pybytes _ => true
  | _ => false

/-- `int(v)`: ints, and strings holding a decimal integer; everything else
raises. -/
def pyToInt : PyVal → Except Unit Int
  | PyVal.pyint i => Except.ok i
  | PyVal.pystr s =>
    match s.toInt? with
    | some i => Except.ok i
    | none => Except.error ()
  | _ => Except.error ()

/-- `v.hex() if hasattr(v, "hex") else str(v)` (selector/refValue
normalization).  `str()` of containers is coarsely modeled as their Python
`repr` is never consumed by the core. -/
def pyHexOrStr (v : PyVal) : String :=
  match v with
  | PyVal.pybytes h => h
  | PyVal.pystr s => s
  | PyVal.pyint i => toString i
  | PyVal.pynone => "None"
  | _ => ""

/-- The parsed `{limitType, limit, period}` dictionaries — fields keep the
raw decoded values. -/
structure DynLimit where
  limitType : PyVal
  limit : PyVal
  period : PyVal

structure DynConstraint where
  condition : PyVal
  index : PyVal
  refValue : String
  limit : DynLimit

structure DynCallPolicy where
  target : PyVal
  selector : String
  maxValuePerUse : PyVal
  valueLimit : DynLimit
  constraints : List DynConstraint

structure DynTransferPolicy where
  target : PyVal
  maxValuePerUse : PyVal
  valueLimit : DynLimit

structure DynSession where
  signer : PyVal
  expiresAt : Int
  feeLimit : DynLimit
  callPolicies : List DynCallPolicy
  transferPolicies : List DynTransferPolicy

/-- Limit parsing, dict-like via `.get` with defaults, else positional with
`len` guards (`parse_session_config` lines 236–247, 260–271, 390–401). -/
def parse_limit_guarded (v : PyVal) : Except Unit DynLimit :=
  if hasattrGet v then do
    let lt ← pyAttrGet v "limitType" (PyVal.pyint 0)
    let li ← pyAttrGet v "limit" (PyVal.pyint 0)
    let pe ← pyAttrGet v "period" (PyVal.pyint 0)
    Except.ok ⟨lt, li, pe⟩
  else do
    let n ← pyLen v
    let lt ← if 0 < n then pyIndex v 0 else Except.ok (PyVal.pyint 0)
    let li ← if 1 < n then pyIndex v 1 else Except.ok (PyVal.pyint 0)
    let pe ← if 2 < n then pyIndex v 2 else Except.ok (PyVal.pyint 0)
    Except.ok ⟨lt, li, pe⟩

/-- Positional limit parsing with `len` guards only (lines 297–301,
340–344, 350–353, 396–401). -/
def parse_limit_positional (v : PyVal) : Except Unit DynLimit := do
  let n ← pyLen v
  let lt ← if 0 < n then pyIndex v 0 else Except.ok (PyVal.pyint 0)
  let li ← if 1 < n then pyIndex v 1 else Except.ok (PyVal.pyint 0)
  let pe ← if 2 < n then pyIndex v 2 else Except.ok (PyVal.pyint 0)
  Except.ok ⟨lt, li, pe⟩

/-- Positional limit parsing without guards — `limit[0]`, `limit[1]`,
`limit[2]` (lines 425–429, 437–441, 447–451, 485–489). -/
def parse_limit_strict (v : PyVal) : Except Unit DynLimit := do
  let lt ← pyIndex v 0
  let li ← pyIndex v 1
  let pe ← pyIndex v 2
  Except.ok ⟨lt, li, pe⟩

/-- Python tuple unpacking `a, b, c = v` (length must match exactly;
anything but a decoded sequence raises). -/
def pyUnpack3 (v : PyVal) : Except Unit (PyVal × PyVal × PyVal) :=
  match v with
  | PyVal.pylist [a, b, c] => Except.ok (a, b, c)
  | _ => Except.error ()

def pyUnpack4 (v : PyVal) : Except Unit (PyVal × PyVal × PyVal × PyVal) :=
  match v with
  | PyVal.pylist [a, b, c, d] => Except.ok (a, b, c, d)
  | _ => Except.error ()

def pyUnpack5 (v : PyVal) :
    Except Unit (PyVal × PyVal × PyVal × PyVal × PyVal) :=
  match v with
  | PyVal.pylist [a, b, c, d, e] => Except.ok (a, b, c, d, e)
  | _ => Except.error ()

/-- Constraint parsing of the dict-branch policy loop (lines 274–317):
dict-like via `.get`, else 4-tuple unpacking with a guarded positional
limit. -/
def parse_constraint_dyn (c : PyVal) : Except Unit DynConstraint :=
  if hasattrGet c then do
    let condition ← pyAttrGet c "condition" (PyVal.pyint 0)
    let index ← pyAttrGet c "index" (PyVal.pyint 0)
    let refValue ← pyAttrGet c "refValue" (PyVal.pystr "")
    let limit ← pyAttrGet c "limit" (PyVal.pydict [])
    let limitP ← parse_limit_guarded limit
    Except.ok ⟨condition, index, pyHexOrStr refValue, limitP⟩
  else do
    let (condition, index, refValue, limit) ← pyUnpack4 c
    let limitP ← parse_limit_positional limit
    Except.ok ⟨condition, index, pyHexOrStr refValue, limitP⟩

/-- Constraint parsing of the tuple-branch policy loop inside the dict
branch (lines 347–366): 4-tuple unpacking, guarded positional limit. -/
def parse_constraint_tuple_dyn (c : PyVal) : Except Unit DynConstraint := do
  let (condition, index, refValue, limit) ← pyUnpack4 c
  let limitP ← parse_limit_positional limit
  Except.ok ⟨condition, index, pyHexOrStr refValue, limitP⟩

/-- Call-policy parsing of the dict branch (lines 251–380).  Iterating a
non-list `constraints` value raises (decoded logs yield lists). -/
def parse_call_policy_dyn (p : PyVal) : Except Unit DynCallPolicy :=
  if hasattrGet p then do
    let target ← pyAttrGet p "target" PyVal.pynone
    let selector ← pyAttrGet p "selector" PyVal.pynone
    let maxV ← pyAttrGet p "maxValuePerUse" (PyVal.pyint 0)
    let valueLimit ← pyAttrGet p "valueLimit" (PyVal.pydict [])
    let constraints ← pyAttrGet p "constraints" (PyVal.pylist [])
    let vlP ← parse_limit_guarded valueLimit
    let cs ← match constraints with
      | PyVal.pylist cs => cs.mapM parse_constraint_dyn
      | _ => Except.error ()
    Except.ok ⟨target, pyHexOrStr selector, maxV, vlP, cs⟩
  else do
    let (target, selector, maxV, valueLimit, constraints) ← pyUnpack5 p
    let vlP ← parse_limit_positional valueLimit
    let cs ← match constraints with
      | PyVal.pylist cs => cs.mapM parse_constraint_tuple_dyn
      | _ => Except.error ()
    Except.ok ⟨target, pyHexOrStr selector, maxV, vlP, cs⟩

/-- Transfer-policy parsing of the dict branch (lines 383–416); the
3-tuple path reads `value_limit[0..2]` without guards. -/
def parse_transfer_policy_dyn (p : PyVal) : Except Unit DynTransferPolicy :=
  if hasattrGet p then do
    let target ← pyAttrGet p "target" PyVal.pynone
    let maxV ← pyAttrGet p "maxValuePerUse" (PyVal.pyint 0)
    let valueLimit ← pyAttrGet p "valueLimit" (PyVal.pydict [])
    let vlP ← parse_limit_guarded valueLimit
    Except.ok ⟨target, maxV, vlP⟩
  else do
    let (target, maxV, valueLimit) ← pyUnpack3 p
    let vlP ← parse_limit_strict valueLimit
    Except.ok ⟨target, maxV, vlP⟩

/-- Call-policy parsing of the outer tuple branch (lines 431–477):
unguarded positional limits throughout. -/
def parse_call_policy_tuple_dyn (p : PyVal) : Except Unit DynCallPolicy := do
  let (target, selector, maxV, valueLimit, constraints) ← pyUnpack5 p
  let vlP ← parse_limit_strict valueLimit
  let cs ← match constraints with
    | PyVal.pylist cs => cs.mapM (fun c => do
        let (condition, index, refValue, limit) ← pyUnpack4 c
        let limitP ← parse_limit_strict limit
        Except.ok (⟨condition, index, pyHexOrStr refValue,
          limitP⟩ : DynConstraint))
    | _ => Except.error ()
  Except.ok ⟨target, pyHexOrStr selector, maxV, vlP, cs⟩

/-- Transfer-policy parsing of the outer tuple branch (lines 479–497). -/
def parse_transfer_policy_tuple_dyn (p : PyVal) :
    Except Unit DynTransferPolicy := do
  let (target, maxV, valueLimit) ← pyUnpack3 p
  let vlP ← parse_limit_strict valueLimit
  Except.ok ⟨target, maxV, vlP⟩

/-- The `expires_at` integer coercion (lines 499–507): its `try/except` is
local, a failed `int()` falls back to `now + 3600`. -/
def coerce_expires (now : Int) (v : PyVal) : Int :=
  match v with
  | PyVal.pyint i => i
  | other =>
    match pyToInt other with
    | Except.ok i => i
    | Except.error _ => now + 3600

/-- The main body of `parse_session_config` (lines 223–518).  A decoded
dict takes the `.get` branch; a decoded tuple/list takes the 5-unpacking
branch; anything else raises into the fallback (a string enters the dict
branch in Python and raises at `.get` — identical outcome). -/
def parse_session_main (now : Int) (v : PyVal) : Except Unit DynSession :=
  match v with
  | PyVal.pydict fs => do
    let signer ← pyAttrGet (PyVal.pydict fs) "signer" PyVal.pynone
    let expiresRaw ← pyAttrGet (PyVal.pydict fs) "expiresAt" (PyVal.pyint 0)
    let feeLimit ← pyAttrGet (PyVal.pydict fs) "feeLimit" (PyVal.pydict [])
    let callPolicies ←
      pyAttrGet (PyVal.pydict fs) "callPolicies" (PyVal.pylist [])
    let transferPolicies ←
      pyAttrGet (PyVal.pydict fs) "transferPolicies" (PyVal.pylist [])
    let feeP ← parse_limit_guarded feeLimit
    let cps ← match callPolicies with
      | PyVal.pylist ps => ps.mapM parse_call_policy_dyn
      | _ => Except.error ()
    let tps ← match transferPolicies with
      | PyVal.pylist ps => ps.mapM parse_transfer_policy_dyn
      | _ => Except.error ()
    Except.ok ⟨signer, coerce_expires now expiresRaw, feeP, cps, tps⟩
  | PyVal.pylist vs => do
    let (signer, expiresRaw, feeLimit, callPolicies, transferPolicies) ←
      pyUnpack5 (PyVal.pylist vs)
    let feeP ← parse_limit_strict feeLimit
    let cps ← match callPolicies with
      | PyVal.pylist ps => ps.mapM parse_call_policy_tuple_dyn
      | _ => Except.error ()
    let tps ← match transferPolicies with
      | PyVal.pylist ps => ps.mapM parse_transfer_policy_tuple_dyn
      | _ => Except.error ()
    Except.ok ⟨signer, coerce_expires now expiresRaw, feeP, cps, tps⟩
  | _ => Except.error ()

/-- The minimal-config fallback of `parse_session_config` (lines 526–557):
a second failure yields `None`. -/
def parse_session_fallback (now : Int) (v : PyVal) : Option DynSession :=
  let r : Except Unit DynSession := do
    let se ← if hasattrGet v then do
        let s ← pyAttrGet v "signer" PyVal.pynone
        let e ← pyAttrGet v "expiresAt" (PyVal.pyint (now + 3600))
        Except.ok (s, e)
      else do
        let n ← pyLen v
        if 2 ≤ n then do
          let s ← pyIndex v 0
          let e ← pyIndex v 1
          Except.ok (s, e)
        else Except.error ()
    let expires ← match se.2 with
      | PyVal.pyint i => Except.ok i
      | PyVal.pynone => Except.ok (now + 3600)
      | other => pyToInt other
    Except.ok ⟨se.1, expires, ⟨PyVal.pyint 0, PyVal.pyint 0, PyVal.pyint 0⟩,
      [], []⟩
  match r with
  | Except.ok s => some s
  | Except.error _ => none

/-- `parse_session_config(session_spec)` (lines 221–557): main body, with
all its exceptions caught and retried through the fallback.  Total — the
function itself never raises. -/
def parse_session_config_dyn (now : Int) (v : PyVal) : Option DynSession :=
  match parse_session_main now v with
  | Except.ok s => some s
  | Except.error _ => parse_session_fallback now v

/-- One entry of `active_sessions` (lines 185–191): the parsed session
(possibly `None`), the hash hex (or `None`) and the raw block number. -/
structure DynEntry where
  session : Option DynSession
  hashHex : Option String
  block : PyVal

/-- The revoked-hash set comprehension (lines 120–122):
`{log["args"]["sessionHash"].hex() for log in revoked_logs}`.  It sits
inside only the outermost `try`, so a single malformed revoked log raises
out of the whole loop.  (The set is modeled as the list of hashes;
membership is its only use.) -/
def revoked_hashes_dyn (revLogs : List PyVal) : Except Unit (List String) :=
  revLogs.mapM (fun log => do
    let args ← pySubscriptKey log "args"
    let h ← pySubscriptKey args "sessionHash"
    pyHexAttr h)

/-- The per-log body of the created-session loop (lines 129–195).
`Except.error` is an exception reaching the per-log handler (line 193),
which `continue`s — exactly like the `ok none` of the explicit `continue`
statements.  The unused `signer = session_spec[0] …` read (line 150) is
dropped; its exceptions are the same `IndexError/TypeError` the
`expiry_time` read beside it raises, caught by the same handler. -/
def processCreatedLog (now : Int) (revoked : List String) (log : PyVal) :
    Except Unit (Option DynEntry) := do
  let args ← pyAttrGet log "args" (PyVal.pydict [])
  let sessionHash ← pyAttrGet args "sessionHash" PyVal.pynone
  let sessionSpec ← pyAttrGet args "sessionSpec" PyVal.pynone
  if ¬ pyTruthy sessionSpec then Except.ok none
  else
    let expiryAttempt : Except Unit PyVal :=
      if hasattrGet sessionSpec then
        pyAttrGet sessionSpec "expiresAt" (PyVal.pyint 0)
      else do
        let n ← pyLen sessionSpec
        if 1 < n then pyIndex sessionSpec 1 else Except.ok (PyVal.pyint 0)
    match expiryAttempt with
    | Except.error _ => Except.ok none
    | Except.ok expiryRaw =>
      let expiry : Int :=
        match expiryRaw with
        | PyVal.pyint i => i
        | other =>
          match pyToInt other with
          | Except.ok i => i
          | Except.error _ => 0
      let isNotRevoked : Bool :=
        if pyTruthy sessionHash then
          match sessionHash with
          | PyVal.pybytes h => ! revoked.contains h
          | PyVal.pystr s => ! revoked.contains s
          | _ => true
        else true
      if ¬ (now < expiry) then Except.ok none
      else if ¬ isNotRevoked then Except.ok none
      else do
        let parsed := parse_session_config_dyn now sessionSpec
        let entryHash ← if pyTruthy sessionHash then do
            let h ← pyHexAttr sessionHash
            Except.ok (some h)
          else Except.ok none
        let block ← pyAttrGet log "blockNumber" (PyVal.pyint 0)
        Except.ok (some ⟨parsed, entryHash, block⟩)

/-- The created-session loop: errors and `continue`s both skip the log. -/
def processLogs (now : Int) (revoked : List String) (logs : List PyVal) :
    List DynEntry :=
  logs.foldl (fun acc log =>
    match processCreatedLog now revoked log with
    | Except.ok (some e) => acc ++ [e]
    | _ => acc) []

def blockIntOf : PyVal → Int
  | PyVal.pyint i => i
  | _ => 0

def blocksAllInt (es : List DynEntry) : Bool :=
  es.all (fun e => match e.block with
    | PyVal.pyint _ => true
    | _ => false)

/-- `active_sessions.sort(key=lambda x: x["block_number"], reverse=True)`
(line 198): integer keys sort stably descending; incomparable key types
make `list.sort` raise a `TypeError` into the outer handler. -/
def sortEntries (es : List DynEntry) : Except Unit (List DynEntry) :=
  if blocksAllInt es then
    Except.ok (es.mergeSort
      (fun a b => decide (blockIntOf b.block ≤ blockIntOf a.block)))
  else Except.error ()

/-- `s["session"]["signer"].lower()` (line 207): raises when the parsed
session is `None` or its signer is not a string. -/
def signerLowerOf (e : DynEntry) : Except Unit String :=
  match e.session with
  | none => Except.error ()
  | some sess =>
    match sess.signer with
    | PyVal.pystr s => Except.ok (lowerStr s)
    | _ => Except.error ()

/-- The signer-filter comprehension (lines 204–208). -/
def filterBySigner (f : String) : List DynEntry →
    Except Unit (List DynEntry)
  | [] => Except.ok []
  | e :: es => do
    let s ← signerLowerOf e
    let rest ← filterBySigner f es
    Except.ok (if s == lowerStr f then e :: rest else rest)

/-- The client-side account filter of the fallback scan (lines 94–106):
each log is read inside its own `try`; failures and non-matching accounts
are skipped. -/
def accountMatches (address : String) (log : PyVal) : Bool :=
  match (do
      let a ← pySubscriptKey log "args"
      pySubscriptKey a "account" : Except Unit PyVal) with
  | Except.ok (PyVal.pystr s) => decide (s ≠ "") && (lowerStr s == lowerStr address)
  | _ => false

/-- The body of `fetch_session_config` inside its outermost `try` (lines
11–211).  `queryResult` is the account-filtered `SessionCreated`/
`SessionRevoked` query pair of lines 27–46 (one failure empties both);
`fallbackCreated` stands for the recent-block/chunked fallback scans of
lines 49–112, whose own failures leave the list empty. -/
def fetchDynE (queryResult : Except Unit (List PyVal × List PyVal))
    (fallbackCreated : Except Unit (List PyVal)) (address : String)
    (now : Int) (filt : Option String) :
    Except Unit (Option DynSession) :=
  let cr := match queryResult with
    | Except.ok cr => cr
    | Except.error _ => ([], [])
  let created := if cr.1.isEmpty then
      match fallbackCreated with
      | Except.ok logs => logs.filter (accountMatches address)
      | Except.error _ => []
    else cr.1
  if created.isEmpty then Except.ok none
  else
    match revoked_hashes_dyn cr.2 with
    | Except.error e => Except.error e
    | Except.ok revokedHashes =>
      match sortEntries (processLogs now revokedHashes created) with
      | Except.error e => Except.error e
      | Except.ok sorted =>
        match filt with
        | none => Except.ok (sorted.head?.elim none (fun e => e.session))
        | some f =>
          if f ≠ "" ∧ ¬ sorted.isEmpty then
            match filterBySigner f sorted with
            | Except.error e => Except.error e
            | Except.ok filtered =>
              Except.ok (filtered.head?.elim none (fun en => en.session))
          else Except.ok (sorted.head?.elim none (fun e => e.session))

/-- `fetch_session_config` with its outermost handler (lines 213–218):
every escaped exception becomes a `None` result. -/
def fetch_session_config_dyn
    (queryResult : Except Unit (List PyVal × List PyVal))
    (fallbackCreated : Except Unit (List PyVal)) (address : String)
    (now : Int) (filt : Option String) : Option DynSession :=
  match fetchDynE queryResult fallbackCreated address now filt with
  | Except.ok r => r
  | Except.error _ => none

theorem mergeSort_single {α : Type} (a : α) (le : α → α → Bool) :
    [a].mergeSort le = [a] :=
  List.perm_singleton.mp (List.mergeSort_perm [a] le)

/-- A well-formed decoded `sessionSpec` for the C10 scenario. -/
def c10_good_spec : PyVal :=
  PyVal.pydict [("signer", PyVal.pystr "0xS"),
    ("expiresAt", PyVal.pyint 1100),
    ("feeLimit", PyVal.pydict [("limitType", PyVal.pyint 0),
      ("limit", PyVal.pyint 0), ("period", PyVal.pyint 0)]),
    ("callPolicies", PyVal.pylist []),
    ("transferPolicies", PyVal.pylist [])]

/-- A well-formed `SessionCreated` log carrying `c10_good_spec`. -/
def c10_good_log : PyVal :=
  PyVal.pydict [("args", PyVal.pydict [("account", PyVal.pystr "0xacc"),
    ("sessionHash", PyVal.pybytes "abcd"),
    ("sessionSpec", c10_good_spec)]),
    ("blockNumber", PyVal.pyint 5)]

/-- A malformed `SessionRevoked` log: its `args` lack `sessionHash`, so the
set comprehension on line 121 raises a `KeyError`. -/
def c10_bad_revoked : PyVal := PyVal.pydict [("args", PyVal.pydict [])]

/-- What `c10_good_spec` parses to. -/
def c10_good_session : DynSession :=
  ⟨PyVal.pystr "0xS", 1100,
    ⟨PyVal.pyint 0, PyVal.pyint 0, PyVal.pyint 0⟩, [], []⟩

/-- Claim C10 is false as stated: one malformed `SessionRevoked` log aborts
the whole resolution.  With the well-formed active created log alone the
session is returned (second conjunct), but adding a single revoked log
without a `sessionHash` makes `fetch_session_config` return `None`
(first conjunct) — the malformed log is not "skipped without aborting the
whole resolution", because the revoked-hash set comprehension (lines
120–122) sits outside any per-log handler. -/
theorem fetch_dyn_malformed_revoked_aborts :
    fetch_session_config_dyn
      (Except.ok ([c10_good_log], [c10_bad_revoked])) (Except.ok [])
      "0xacc" 1000 none = none ∧
    fetch_session_config_dyn (Except.ok ([c10_good_log], []))
      (Except.ok []) "0xacc" 1000 none = some c10_good_session := by
  constructor
  · rfl
  · have h1 : processLogs 1000 [] [c10_good_log] =
        [⟨some c10_good_session, some "abcd", PyVal.pyint 5⟩] := rfl
    have h2 : sortEntries
        [⟨some c10_good_session, some "abcd", PyVal.pyint 5⟩] =
        Except.ok [⟨some c10_good_session, some "abcd", PyVal.pyint 5⟩] := by
      simp [sortEntries, blocksAllInt, mergeSort_single]
    simp only [fetch_session_config_dyn, fetchDynE]
    simp only [List.isEmpty_cons, Bool.false_eq_true, if_false,
      show revoked_hashes_dyn [] = Except.ok [] from rfl, h1, h2]
    rfl

/-- Claim C10, amended: the resolution never lets an exception escape (the
outermost handler turns any internal error into `None`); a created-session
log whose processing raises is skipped without affecting the outcome; but a
revoked-session log whose hash extraction raises aborts the whole
resolution to `None` even when active sessions exist. -/
theorem fetch_session_config_dyn_resilience :
    (∀ q fb a now filt,
      (∃ r, fetchDynE q fb a now filt = Except.ok r) ∨
        fetch_session_config_dyn q fb a now filt = none) ∧
    (∀ (now : Int) revoked l1 l2 bad,
      processCreatedLog now revoked bad = Except.error () →
      processLogs now revoked (l1 ++ bad :: l2) =
        processLogs now revoked (l1 ++ l2)) ∧
    (∀ created revLogs fb a (now : Int) filt, created.isEmpty = false →
      revoked_hashes_dyn revLogs = Except.error () →
      fetch_session_config_dyn (Except.ok (created, revLogs)) fb a now
        filt = none) ∧
    (∀ l1 l2 bad revLogs fb a (now : Int) filt,
      (l1 ++ l2).isEmpty = false →
      (∀ rh, processCreatedLog now rh bad = Except.error ()) →
      fetch_session_config_dyn (Except.ok (l1 ++ bad :: l2, revLogs)) fb a
        now filt =
      fetch_session_config_dyn (Except.ok (l1 ++ l2, revLogs)) fb a now
        filt) := by
  have hskip : ∀ (now : Int) revoked l1 l2 bad,
      processCreatedLog now revoked bad = Except.error () →
      processLogs now revoked (l1 ++ bad :: l2) =
        processLogs now revoked (l1 ++ l2) := by
    intro now revoked l1 l2 bad hbad
    unfold processLogs
    rw [List.foldl_append, List.foldl_append, List.foldl_cons, hbad]
  refine ⟨?_, hskip, ?_, ?_⟩
  · intro q fb a now filt
    cases h : fetchDynE q fb a now filt with
    | ok r => exact Or.inl ⟨r, rfl⟩
    | error e =>
      right
      simp [fetch_session_config_dyn, h]
  · intro created revLogs fb a now filt hne hrev
    simp only [fetch_session_config_dyn, fetchDynE, hne, hrev,
      Bool.false_eq_true, if_false]
  · intro l1 l2 bad revLogs fb a now filt hne hbad
    have hne1 : (l1 ++ bad :: l2).isEmpty = false := by
      simp
    simp only [fetch_session_config_dyn, fetchDynE, hne1, hne,
      Bool.false_eq_true, if_false]
    cases hr : revoked_hashes_dyn revLogs with
    | error e => rfl
    | ok rh => simp only [hskip now rh l1 l2 bad (hbad rh)]

/-- Witness for the amended C10: a malformed created log (a bare integer)
between well-formed processing is skipped: appending it to the good log
leaves the resolution's result unchanged. -/
theorem fetch_session_config_dyn_resilience_witness :
    fetch_session_config_dyn
      (Except.ok ([c10_good_log] ++ PyVal.pyint 7 :: [], []))
      (Except.ok []) "0xacc" 1000 none =
    fetch_session_config_dyn (Except.ok ([c10_good_log] ++ [], []))
      (Except.ok []) "0xacc" 1000 none :=
  fetch_session_config_dyn_resilience.2.2.2 [c10_good_log] [] (PyVal.pyint 7)
    [] (Except.ok []) "0xacc" 1000 none (by simp) (fun rh => rfl)
